import Mathlib

/-!
Verification of the task-progress engine of github.com/wbrc/progress.

The development shallowly embeds the event protocol (`TaskEvent`), the
console renderer's task-tree engine (`consoleRenderer.update` / `task.update`
from console.go), the trace renderer (`traceRenderer.update` from trace.go),
the producer-side task handles that emit events (`readerTask.Read`,
`writerTask.Write`, `copyTask.ResetEvent`, `taskExecutor.CachedEvent` from
task.go), and one iteration of the scheduler loop (`MainLoop.step` from
progress.go).

Modelling conventions:
- `uint64` ids and byte counters become `Nat` (the code only compares them
  with `0`, overwrites them and uses them as map keys; no wrapping
  arithmetic is reachable for realistic streams).
- `time.Time` becomes `Nat`; the zero `time.Time{}` is `0`, and
  `te.IOStartTime != (time.Time{})` becomes `te.ioStartTime ≠ 0`.
- Go error values become `String` messages (the code only stores and prints
  them); `Logs []byte` becomes `List Nat`.
- The Go code mutates a pointer graph: `task` values live in the map
  `consoleRenderer.allTasks` and `task.update` mutates the task in place,
  possibly incrementing a counter of the (aliasable) parent task reached
  through the same map.  The embedding therefore keeps the whole renderer
  state and performs every field write as an update of the map entry at the
  task's id, which reproduces Go's aliasing (a task whose `parentID` equals
  its own id shares the entry with its "parent").
- Go maps become insertion-ordered association lists (`List (Nat × α)`)
  with `mlookup`/`mset`/`mmodify`; only lookup and insert/overwrite are
  used by the source.
-/

/-- TaskEvent mirrors the Go struct `TaskEvent` (task.go): one immutable
progress message.  Field defaults are the Go zero values, so a Lean
structure literal like `{ id := 1, cached := true }` corresponds to the Go
composite literal `&TaskEvent{ID: 1, Cached: true}`. -/
structure TaskEvent where
  id : Nat := 0
  parentID : Nat := 0
  name : String := ""
  startTime : Nat := 0
  endTime : Nat := 0
  ioStartTime : Nat := 0
  isDone : Bool := false
  cached : Bool := false
  current : Nat := 0
  total : Nat := 0
  enableDisplayRate : Bool := false
  disableDisplayRate : Bool := false
  enableDisplayETA : Bool := false
  disableDisplayETA : Bool := false
  enableDisplayBar : Bool := false
  disableDisplayBar : Bool := false
  hasErr : Bool := false
  err : String := ""
  logs : List Nat := []
deriving Repr, DecidableEq

/-- Lookup in an insertion-ordered association list (the model of a Go map
read `m[k]`). -/
def mlookup {α : Type} : List (Nat × α) → Nat → Option α
  | [], _ => none
  | (k, v) :: rest, i => if k = i then some v else mlookup rest i

/-- Write `m[k] = v` in an association list: overwrite the entry when the
key is present, append a new entry otherwise. -/
def mset {α : Type} : List (Nat × α) → Nat → α → List (Nat × α)
  | [], k, v => [(k, v)]
  | (k', v') :: rest, k, v =>
      if k' = k then (k, v) :: rest else (k', v') :: mset rest k v

/-- Apply `f` to the entry at key `k` when it exists (the model of mutating
a struct reached through a Go map lookup). -/
def mmodify {α : Type} (m : List (Nat × α)) (k : Nat) (f : α → α) : List (Nat × α) :=
  match mlookup m k with
  | some v => mset m k (f v)
  | none => m

/-- Keys of an association list, in insertion order. -/
def mkeys {α : Type} (m : List (Nat × α)) : List Nat :=
  m.map Prod.fst

/-- task mirrors the Go struct `task` (console.go): one node of the task
tree.  `term`, `logTail` and the `progress` back-pointer are omitted: the
first two are external collaborators (terminal emulation, tail buffer) and
the back-pointer is represented by passing the whole renderer state to
`task.update`.  `subtasks` stores the child ids in append order (the Go
slice holds pointers into the same map). -/
structure task where
  id : Nat := 0
  parentID : Nat := 0
  name : String := ""
  depth : Nat := 0
  startTime : Nat := 0
  endTime : Nat := 0
  ioStartTime : Nat := 0
  current : Nat := 0
  total : Nat := 0
  displayRate : Bool := false
  displayETA : Bool := false
  displayBar : Bool := false
  isDone : Bool := false
  isCached : Bool := false
  hasError : Bool := false
  err : String := ""
  logs : List (List Nat) := []
  subtasks : List Nat := []
  subtasksDone : Nat := 0
deriving Repr, DecidableEq

/-- consoleRenderer mirrors the Go struct `consoleRenderer` (console.go).
`lines` is only used by `render`, never by `update`. -/
structure consoleRenderer where
  name : String := ""
  startTime : Nat := 0
  tasks : List Nat := []
  allTasks : List (Nat × task) := []
  tasksDone : Nat := 0
  lines : Nat := 0
  hasError : Bool := false
deriving Repr, DecidableEq

/-- newConsoleRenderer mirrors `newConsoleRenderer` (console.go), with the
wall clock passed explicitly. -/
def newConsoleRenderer (name : String) (now : Nat) : consoleRenderer :=
  { name := name, startTime := now }

/-- The straight-line field merges of `task.update` (console.go) that only
touch the task itself and precede the done transition.  Each Go statement
`if cond { t.x = v }` becomes `x := if cond then v else t.x`; note that
`t.endTime = te.EndTime` is unconditional in the source. -/
def task.applyFields (te : TaskEvent) (t : task) : task :=
  { t with
    ioStartTime := if te.ioStartTime ≠ 0 then te.ioStartTime else t.ioStartTime,
    name := if te.name ≠ "" then te.name else t.name,
    endTime := te.endTime,
    current := if 0 < te.current then te.current else t.current,
    total := if 0 < te.total then te.total else t.total,
    displayRate :=
      if te.enableDisplayRate then true
      else if te.disableDisplayRate then false else t.displayRate,
    displayETA :=
      if te.enableDisplayETA then true
      else if te.disableDisplayETA then false else t.displayETA,
    displayBar :=
      if te.enableDisplayBar then true
      else if te.disableDisplayBar then false else t.displayBar }

/-- The field merges of `task.update` (console.go) that follow the done
transition: `Cached`, `HasErr`/`Err` and the log append. -/
def task.applyPostFields (te : TaskEvent) (t : task) : task :=
  { t with
    isCached := if te.cached then true else t.isCached,
    hasError := if te.hasErr then true else t.hasError,
    err := if te.hasErr then te.err else t.err,
    logs := if te.logs ≠ [] then t.logs ++ [te.logs] else t.logs }

/-- Mutate the task stored under key `k` in place (the model of a Go field
write through a pointer obtained from the map). -/
def modifyTask (p : consoleRenderer) (k : Nat) (f : task → task) : consoleRenderer :=
  { p with allTasks := mmodify p.allTasks k f }

/-- The done transition of `task.update` (console.go):
`if !t.isDone && te.IsDone` mark the task done and increment either the
parent's `subtasksDone` (when `t.parentID` is a key of `allTasks` — the
parent may alias the task itself) or the renderer-level `tasksDone`. -/
def task.doneTransition (p : consoleRenderer) (tid : Nat) (te : TaskEvent) : consoleRenderer :=
  match mlookup p.allTasks tid with
  | none => p
  | some t =>
    if !t.isDone && te.isDone then
      let pd := modifyTask p tid (fun u => { u with isDone := true })
      match mlookup pd.allTasks t.parentID with
      | some _ =>
          modifyTask pd t.parentID
            (fun parent => { parent with subtasksDone := parent.subtasksDone + 1 })
      | none => { pd with tasksDone := pd.tasksDone + 1 }
    else p

/-- task.update mirrors the method `(*task).update` (console.go) for the
task stored at key `tid`: the pre-done field merges, the done transition,
the post-done field merges, and — inside the `te.HasErr` branch — the
renderer-level `hasError` flag.  All task-field writes go through the map
entry so that the Go aliasing between the task and a parent found under
the same key is preserved. -/
def task.update (p : consoleRenderer) (tid : Nat) (te : TaskEvent) : consoleRenderer :=
  let p2 := task.doneTransition (modifyTask p tid (task.applyFields te)) tid te
  let p3 := modifyTask p2 tid (task.applyPostFields te)
  if te.hasErr then { p3 with hasError := true } else p3

/-- The task literal created by `(*consoleRenderer).update` (console.go)
for the first event of an id; every field not listed there starts at its
Go zero value. -/
def newTask (te : TaskEvent) (depth : Nat) : task :=
  { id := te.id, parentID := te.parentID,
    startTime := te.startTime, ioStartTime := te.ioStartTime,
    current := te.current, total := te.total,
    name := te.name, depth := depth }

/-- consoleRenderer.update mirrors the method `(*consoleRenderer).update`
(console.go): drop events with id 0, route events for known ids to
`task.update`, and otherwise create a new task whose depth and linkage
depend on whether `te.ParentID` is already a key of `allTasks` (looked up
before the new task is inserted, exactly as in the source). -/
def consoleRenderer.update (p : consoleRenderer) (te : TaskEvent) : consoleRenderer :=
  if te.id = 0 then p
  else
    match mlookup p.allTasks te.id with
    | some _ => task.update p te.id te
    | none =>
      let parentEntry := mlookup p.allTasks te.parentID
      let depth : Nat :=
        match parentEntry with
        | some parent => parent.depth + 1
        | none => 1
      let p' : consoleRenderer :=
        { p with allTasks := mset p.allTasks te.id (newTask te depth) }
      match parentEntry with
      | some _ =>
          { p' with allTasks := (mmodify p'.allTasks te.parentID
              (fun parent => { parent with subtasks := parent.subtasks ++ [te.id] })) }
      | none => { p' with tasks := p'.tasks ++ [te.id] }

/-- Row models the structure of the single title line that `(*task).render`
(console.go) paints for a task: which optional pieces appear and with what
data.  Numeric formatting (`units.Bytes`, `%.1f`), wall-clock based rate and
ETA values, column widths and the ANSI escapes are display-only and are
abstracted to the presence/absence of each piece; `bar` is the guard of the
inline progress bar (`t.displayBar && t.total > 0 && !t.isDone` in the
source). -/
structure Row where
  depth : Nat
  cachedMarker : Bool
  name : String
  bytesCount : Option (Nat × Option Nat)
  rate : Bool
  eta : Bool
  subtasksCounter : Option (Nat × Nat)
  stopwatchEnd : Option Nat
  bar : Bool
  styleError : Bool
  styleDone : Bool
  styleDoneCachedBold : Bool
deriving Repr, DecidableEq

/-- task.renderRow translates the title-line construction of
`(*task).render` (console.go), guard for guard:
`bytesCount` appears only when `current > 0` and carries the total only
when additionally `total > 0 && !isDone`; `rate`/`eta` need
`current > 0 && total > 0 && !isDone` and the matching toggle; the
subtasks counter appears when the task has subtasks; the stopwatch uses
`endTime` only when done (otherwise the wall clock, modelled as `none`);
the bar needs `displayBar && total > 0 && !isDone`. -/
def task.renderRow (t : task) : Row :=
  { depth := t.depth,
    cachedMarker := t.isCached,
    name := t.name,
    bytesCount :=
      if 0 < t.current then
        some (t.current, if 0 < t.total ∧ t.isDone = false then some t.total else none)
      else none,
    rate := decide (0 < t.current) && decide (0 < t.total) && !t.isDone && t.displayRate,
    eta := decide (0 < t.current) && decide (0 < t.total) && !t.isDone && t.displayETA,
    subtasksCounter :=
      if t.subtasks ≠ [] then some (t.subtasksDone, t.subtasks.length) else none,
    stopwatchEnd := if t.isDone then some t.endTime else none,
    bar := t.displayBar && decide (0 < t.total) && !t.isDone,
    styleError := t.hasError,
    styleDone := !t.hasError && t.isDone,
    styleDoneCachedBold := !t.hasError && t.isDone && t.isCached }

/-- copyTask.ResetEvent is the event sent by `(*copyTask).Reset(total)`
(task.go): `&TaskEvent{ID: t.id, Total: total, Current: 0, IOStartTime:
time.Now()}`, with the wall clock passed explicitly. -/
def copyTask.ResetEvent (id total now : Nat) : TaskEvent :=
  { id := id, total := total, current := 0, ioStartTime := now }

/-- taskExecutor.CachedEvent is the event sent by `(*taskExecutor).Cached()`
(task.go): `&TaskEvent{ID: t.id, Cached: true}`. -/
def taskExecutor.CachedEvent (id : Nat) : TaskEvent :=
  { id := id, cached := true }

/-- readerTask mirrors the progress-tracking fields of the Go struct
`readerTask` (task.go); the wrapped `io.Reader` is an external collaborator
and is modelled by passing the underlying read's result to
`readerTask.Read`. -/
structure readerTask where
  id : Nat := 0
  read : Nat := 0
deriving Repr, DecidableEq

/-- readerTask.Read mirrors `(*readerTask).Read` (task.go).  The underlying
reader returned `res = (n, err)`; the wrapper adds `n` to the cumulative
count, emits one event carrying the new cumulative count as `Current`, and
returns `res` unchanged.  The result is (new wrapper state, emitted event,
value returned to the caller). -/
def readerTask.Read (t : readerTask) (res : Nat × Option String) :
    readerTask × TaskEvent × (Nat × Option String) :=
  let n := res.1
  ({ t with read := t.read + n },
   { id := t.id, current := t.read + n },
   res)

/-- writerTask mirrors the progress-tracking fields of the Go struct
`writerTask` (task.go). -/
structure writerTask where
  id : Nat := 0
  written : Nat := 0
deriving Repr, DecidableEq

/-- writerTask.Write mirrors `(*writerTask).Write` (task.go), exactly like
`readerTask.Read` with the cumulative `written` count. -/
def writerTask.Write (t : writerTask) (res : Nat × Option String) :
    writerTask × TaskEvent × (Nat × Option String) :=
  let n := res.1
  ({ t with written := t.written + n },
   { id := t.id, current := t.written + n },
   res)

/-- knownTask mirrors the Go struct `knownTask` (trace.go). -/
structure knownTask where
  started : Nat := 0
  name : String := ""
deriving Repr, DecidableEq

/-- TraceLine models one line appended to the trace renderer's buffer
(trace.go).  The float-formatted wall-clock header is abstracted to the
`header` number of the line, and each line additionally records the event
id that produced it (the printed text only carries the name; the id tag is
what lets the per-id claims be stated). -/
inductive TraceLine where
  | start (header : Nat) (id : Nat) (name : String)
  | log (header : Nat) (rendererName : String) (id : Nat) (line : List Nat)
  | done (header : Nat) (id : Nat) (name : String)
      (copied : Option (Nat × Option Nat)) (secsDone : Nat) (errMsg : Option String)
deriving Repr, DecidableEq

/-- traceRenderer mirrors the Go struct `traceRenderer` (trace.go), with
the byte buffer modelled as the list of appended lines. -/
structure traceRenderer where
  name : String := ""
  startTime : Nat := 0
  knownTasks : List (Nat × knownTask) := []
  buf : List TraceLine := []
deriving Repr, DecidableEq

/-- cutSuffixNL models `bytes.CutSuffix(te.Logs, []byte("\n"))` (trace.go):
drop one trailing newline byte when present. -/
def cutSuffixNL (l : List Nat) : List Nat :=
  if l.getLast? = some 10 then l.dropLast else l

/-- splitNL models `bytes.Split(logs, []byte("\n"))`: split a byte list on
newline bytes; splitting the empty list yields one empty chunk, as in Go. -/
def splitNL : List Nat → List (List Nat)
  | [] => [[]]
  | b :: rest =>
    match splitNL rest with
    | [] => [[]]
    | chunk :: chunks => if b = 10 then [] :: chunk :: chunks else (b :: chunk) :: chunks

/-- traceRenderer.update mirrors `(*traceRenderer).update` (trace.go) with
the wall clock passed as `now`: the first event for an id records the task
and appends one START line; every later event appends one log line per
newline-delimited chunk of `te.Logs`, and additionally appends one DONE
line whenever `te.IsDone` is set (there is no deduplication of done
events in the source). -/
def traceRenderer.update (t : traceRenderer) (now : Nat) (te : TaskEvent) : traceRenderer :=
  let header := now - t.startTime
  match mlookup t.knownTasks te.id with
  | none =>
      { t with
        knownTasks := mset t.knownTasks te.id { started := te.startTime, name := te.name },
        buf := t.buf ++ [TraceLine.start header te.id te.name] }
  | some tk =>
      let t1 : traceRenderer :=
        if te.logs ≠ [] then
          { t with buf := t.buf ++
              ((splitNL (cutSuffixNL te.logs)).map
                (fun line => TraceLine.log header t.name te.id line)) }
        else t
      if te.isDone then
        let copied : Option (Nat × Option Nat) :=
          if te.current ≠ 0 then
            some (te.current, if te.total ≠ 0 then some te.total else none)
          else none
        let errMsg : Option String := if te.hasErr then some te.err else none
        { t1 with buf := t1.buf ++
            [TraceLine.done header te.id tk.name copied (now - tk.started) errMsg] }
      else t1

/-- newTraceRenderer mirrors `newTraceRenderer` (trace.go), with the wall
clock passed explicitly. -/
def newTraceRenderer (name : String) (now : Nat) : traceRenderer :=
  { name := name, startTime := now }

/-- The render tick period of `MainLoop` (progress.go), in milliseconds. -/
def tickRate : Nat := 150

/-- The minimum inter-render interval of `MainLoop` (progress.go), in
milliseconds. -/
def rateLimit : Nat := 100

/-- Modelled from the spec: the token-bucket rate limiter
`rate.NewLimiter(rate.Every(rateLimit), 1)` used by `MainLoop` comes from
the external library golang.org/x/time/rate, whose source is not part of
this repository.  With burst 1 its `Allow()` succeeds exactly when the
minimum inter-render interval has elapsed since the last successful
`Allow()` (and always succeeds before the first one, the bucket starting
full). -/
def limiterAllow (lastAllow : Option Nat) (now : Nat) : Bool :=
  match lastAllow with
  | none => true
  | some l => l + rateLimit ≤ now

/-- LoopInput is the reason one iteration of `MainLoop`'s `select` woke up:
the ticker fired, an event arrived, or the events channel closed. -/
inductive LoopInput where
  | tick
  | ev (te : TaskEvent)
  | closed
deriving Repr, DecidableEq

/-- LoopState is the per-iteration state of `MainLoop` (progress.go): the
folded renderer state, the `done` flag, and the rate limiter's state (time
of the last granted token). -/
structure LoopState (σ : Type) where
  prog : σ
  done : Bool := false
  lastAllow : Option Nat := none
deriving Repr, DecidableEq

/-- MainLoop.step is one iteration of the `for done := false; !done;` loop
of `MainLoop` (progress.go), at wall-clock `now`: the select either
consumes a tick, folds an arrived event into the renderer state with `upd`
(`updateProgress` / the renderer's update), or sets `done` when the channel
is closed; then the iteration renders iff `done || r.Allow()`, with the
short-circuit of `||` preserved (`Allow` consumes no token when `done`).
Returns the next state and whether this iteration rendered. -/
def MainLoop.step {σ : Type} (upd : σ → TaskEvent → σ) (st : LoopState σ)
    (now : Nat) (inp : LoopInput) : LoopState σ × Bool :=
  let st' : LoopState σ :=
    match inp with
    | LoopInput.tick => st
    | LoopInput.ev te => { st with prog := upd st.prog te }
    | LoopInput.closed => { st with done := true }
  if st'.done then (st', true)
  else if limiterAllow st'.lastAllow now then ({ st' with lastAllow := some now }, true)
  else (st', false)

/-- The LoopInput consumed when the events channel reports closure. -/
def LoopInput.isClosed : LoopInput → Bool
  | LoopInput.closed => true
  | _ => false

/-- The final `te.HasErr` renderer-flag write of `task.update` (console.go),
factored out for the proofs below. -/
def afterErr (te : TaskEvent) (q : consoleRenderer) : consoleRenderer :=
  if te.hasErr then { q with hasError := true } else q


/-- Does this trace line render `START` for the id `i`?  (`START` lines are
produced only in the unknown-id branch of `traceRenderer.update`.) -/
def TraceLine.isStartOf (i : Nat) : TraceLine → Bool
  | TraceLine.start _ j _ => j == i
  | _ => false

/-- Does this trace line render `DONE` for the id `i`? -/
def TraceLine.isDoneOf (i : Nat) : TraceLine → Bool
  | TraceLine.done _ j _ _ _ _ => j == i
  | _ => false

/-- Number of `START` lines for id `i` in a trace buffer. -/
def countStart (i : Nat) (buf : List TraceLine) : Nat :=
  (buf.filter (TraceLine.isStartOf i)).length

/-- Number of `DONE` lines for id `i` in a trace buffer. -/
def countDone (i : Nat) (buf : List TraceLine) : Nat :=
  (buf.filter (TraceLine.isDoneOf i)).length

/-- Is there a `START` line for id `i` in the buffer? -/
def hasStartLine (i : Nat) (buf : List TraceLine) : Bool :=
  buf.any (TraceLine.isStartOf i)

/-- Is there a `DONE` line for id `i` in the buffer? -/
def hasDoneLine (i : Nat) (buf : List TraceLine) : Bool :=
  buf.any (TraceLine.isDoneOf i)

/-- Every prefix of the buffer that contains a `DONE` line for id `i` also
contains its `START` line: the `START` precedes every `DONE`. -/
def startBeforeDone (i : Nat) (buf : List TraceLine) : Prop :=
  ∀ n, hasDoneLine i (buf.take n) = true → hasStartLine i (buf.take n) = true

/-- Fold a timed event sequence through `traceRenderer.update`. -/
def foldTrace (tr : traceRenderer) (tes : List (Nat × TaskEvent)) : traceRenderer :=
  tes.foldl (fun s pr => traceRenderer.update s pr.1 pr.2) tr

/-- The number of events in the sequence carrying `IsDone` for id `i` that
arrive when `i` is already known (`seen` says whether `i` was known before
the sequence starts); these are exactly the events for which
`traceRenderer.update` appends a `DONE` line. -/
def laterDoneCount (i : Nat) : Bool → List (Nat × TaskEvent) → Nat
  | _, [] => 0
  | seen, pr :: rest =>
    if pr.2.id = i then
      (if seen && pr.2.isDone then 1 else 0) + laterDoneCount i true rest
    else laterDoneCount i seen rest

/-- The ids carried by an event sequence, in order. -/
def idsOf (es : List TaskEvent) : List Nat :=
  es.map TaskEvent.id

/-- The producer-discipline hypothesis of the forest claim: whenever the
first event of an id names a `parentID` that is the id of any event of the
sequence, the parent's first event occurs strictly earlier.  (An event whose
`parentID` never occurs as an id — including `parentID = 0` — is
unconstrained.) -/
def ParentBeforeChild (es : List TaskEvent) : Prop :=
  ∀ pre e post, es = pre ++ e :: post → e.id ∉ idsOf pre →
    e.parentID ∈ idsOf es → e.parentID ∈ idsOf pre

/-- The forest invariant carried through the event fold: keys are exactly
the ids seen so far with no duplicates, a node whose parent key is present
sits one level below it, and a node whose parent key is absent is a
depth-1 member of the root task list whose `parentID` never occurs in the
whole sequence. -/
def ForestInv (allIds : List Nat) (seen : List Nat) (p : consoleRenderer) : Prop :=
  (mkeys p.allTasks).Nodup ∧
  (∀ i, i ∈ mkeys p.allTasks ↔ i ∈ seen) ∧
  (∀ i t, mlookup p.allTasks i = some t →
    (∀ par, mlookup p.allTasks t.parentID = some par → t.depth = par.depth + 1) ∧
    (mlookup p.allTasks t.parentID = none →
      t.depth = 1 ∧ i ∈ p.tasks ∧ t.parentID ∉ allIds))

/-- A concrete engine state for the copy-progress claims: task 1 named "a"
with `current = 7`. -/
def c1State : consoleRenderer :=
  consoleRenderer.update (consoleRenderer.update (newConsoleRenderer "copy" 0)
    { id := 1, name := "a", startTime := 1 }) { id := 1, current := 7 }

/-- The node stored for id 1 in `c1State`. -/
def c1Node : task :=
  { id := 1, name := "a", depth := 1, startTime := 1, current := 7 }

/-- A concrete engine state with a parent task 1 and its subtask 2. -/
def c2State : consoleRenderer :=
  consoleRenderer.update (consoleRenderer.update (newConsoleRenderer "build" 0)
    { id := 1, name := "par" }) { id := 2, parentID := 1, name := "ch" }

/-- The node stored for id 2 in `c2State`. -/
def c2Node : task :=
  { id := 2, parentID := 1, name := "ch", depth := 2 }

/-- `c2State` after the first done event for the subtask. -/
def c2Done : consoleRenderer :=
  consoleRenderer.update c2State { id := 2, isDone := true }

/-- The node stored for id 2 in `c2Done`. -/
def c2NodeDone : task :=
  { id := 2, parentID := 1, name := "ch", depth := 2, isDone := true }

/-- A concrete engine state whose only task has finished with
`endTime = 5`. -/
def c9State : consoleRenderer :=
  consoleRenderer.update (consoleRenderer.update (newConsoleRenderer "cache" 0)
    { id := 1, startTime := 1 }) { id := 1, isDone := true, endTime := 5 }

/-- The node stored for id 1 in `c9State`. -/
def c9Node : task :=
  { id := 1, depth := 1, startTime := 1, endTime := 5, isDone := true }

/-- A concrete engine state whose task has a known total and an enabled bar
toggle but has never received an event with `Current > 0`. -/
def c5State : consoleRenderer :=
  consoleRenderer.update (consoleRenderer.update (newConsoleRenderer "bar" 0)
    { id := 1, name := "x", total := 100, startTime := 1 }) { id := 1, enableDisplayBar := true }

/-- Fold of an event sequence whose first event names a parent id (5) that
is only created later, followed by a done event for the child. -/
def c6A : consoleRenderer :=
  ([{ id := 1, parentID := 5, name := "ch" }, { id := 5, name := "late" },
    { id := 1, isDone := true }] : List TaskEvent).foldl consoleRenderer.update
    (newConsoleRenderer "c6" 0)

/-- The same fold as `c6A` with the dangling `parentID` replaced by 0. -/
def c6B : consoleRenderer :=
  ([{ id := 1, parentID := 0, name := "ch" }, { id := 5, name := "late" },
    { id := 1, isDone := true }] : List TaskEvent).foldl consoleRenderer.update
    (newConsoleRenderer "c6" 0)

/-! Association-list map lemmas. -/

theorem mlookup_nil {α : Type} (i : Nat) : mlookup ([] : List (Nat × α)) i = none := rfl

theorem mlookup_cons {α : Type} (k : Nat) (v : α) (rest : List (Nat × α)) (i : Nat) :
    mlookup ((k, v) :: rest) i = if k = i then some v else mlookup rest i := rfl

theorem mset_nil {α : Type} (k : Nat) (v : α) : mset ([] : List (Nat × α)) k v = [(k, v)] := rfl

theorem mset_cons {α : Type} (k' : Nat) (v' : α) (rest : List (Nat × α)) (k : Nat) (v : α) :
    mset ((k', v') :: rest) k v =
      if k' = k then (k, v) :: rest else (k', v') :: mset rest k v := rfl

theorem mlookup_mset {α : Type} (m : List (Nat × α)) (k : Nat) (v : α) (i : Nat) :
    mlookup (mset m k v) i = if i = k then some v else mlookup m i := by
  induction m with
  | nil =>
      rw [mset_nil, mlookup_cons, mlookup_nil]
      by_cases h : i = k
      · rw [if_pos h, if_pos h.symm]
      · rw [if_neg h, if_neg (fun hh => h hh.symm)]
  | cons hd tl ih =>
      obtain ⟨k', v'⟩ := hd
      rw [mset_cons]
      by_cases hk : k' = k
      · rw [if_pos hk]
        subst hk
        rw [mlookup_cons, mlookup_cons]
        by_cases h : i = k'
        · rw [if_pos h.symm, if_pos h]
        · rw [if_neg (fun hh => h hh.symm), if_neg h, if_neg (fun hh => h hh.symm)]
      · rw [if_neg hk, mlookup_cons, mlookup_cons, ih]
        by_cases hki : k' = i
        · rw [if_pos hki, if_pos hki]
          rw [if_neg (fun hh : i = k => hk (hki.trans hh))]
        · rw [if_neg hki, if_neg hki]

theorem mlookup_mmodify {α : Type} (m : List (Nat × α)) (k : Nat) (f : α → α) (i : Nat) :
    mlookup (mmodify m k f) i = if i = k then (mlookup m i).map f else mlookup m i := by
  unfold mmodify
  cases h : mlookup m k with
  | none =>
      by_cases hik : i = k
      · subst hik; rw [if_pos rfl, h]; rfl
      · rw [if_neg hik]
  | some v =>
      rw [mlookup_mset]
      by_cases hik : i = k
      · subst hik; rw [if_pos rfl, if_pos rfl, h]; rfl
      · rw [if_neg hik, if_neg hik]

theorem mkeys_nil {α : Type} : mkeys ([] : List (Nat × α)) = [] := rfl

theorem mkeys_cons {α : Type} (k : Nat) (v : α) (rest : List (Nat × α)) :
    mkeys ((k, v) :: rest) = k :: mkeys rest := rfl

theorem mkeys_mset_of_mem {α : Type} (m : List (Nat × α)) (k : Nat) (v : α)
    (h : k ∈ mkeys m) : mkeys (mset m k v) = mkeys m := by
  induction m with
  | nil => simp [mkeys] at h
  | cons hd tl ih =>
      obtain ⟨k', v'⟩ := hd
      rw [mkeys_cons] at h
      rw [mset_cons]
      by_cases hk : k' = k
      · rw [if_pos hk, mkeys_cons, mkeys_cons, hk]
      · rcases List.mem_cons.mp h with h1 | h2
        · exact absurd h1.symm hk
        · rw [if_neg hk, mkeys_cons, mkeys_cons, ih h2]

theorem mkeys_mset_of_not_mem {α : Type} (m : List (Nat × α)) (k : Nat) (v : α)
    (h : k ∉ mkeys m) : mkeys (mset m k v) = mkeys m ++ [k] := by
  induction m with
  | nil => rfl
  | cons hd tl ih =>
      obtain ⟨k', v'⟩ := hd
      rw [mkeys_cons, List.mem_cons, not_or] at h
      obtain ⟨h1, h2⟩ := h
      rw [mset_cons, if_neg (fun hh => h1 hh.symm), mkeys_cons, mkeys_cons, ih h2]
      rfl

theorem mlookup_eq_none_iff {α : Type} (m : List (Nat × α)) (i : Nat) :
    mlookup m i = none ↔ i ∉ mkeys m := by
  induction m with
  | nil => simp [mlookup_nil, mkeys_nil]
  | cons hd tl ih =>
      obtain ⟨k, v⟩ := hd
      rw [mlookup_cons, mkeys_cons]
      by_cases h : k = i
      · subst h; simp
      · rw [if_neg h, ih, List.mem_cons]
        constructor
        · intro hn
          rintro (rfl | hm)
          · exact h rfl
          · exact hn hm
        · intro hn hm
          exact hn (Or.inr hm)

theorem mem_mkeys_of_mlookup {α : Type} {m : List (Nat × α)} {i : Nat} {v : α}
    (h : mlookup m i = some v) : i ∈ mkeys m := by
  by_contra hmem
  rw [← mlookup_eq_none_iff] at hmem
  rw [h] at hmem
  exact Option.noConfusion hmem

theorem mlookup_isSome_iff {α : Type} (m : List (Nat × α)) (i : Nat) :
    (mlookup m i).isSome = true ↔ i ∈ mkeys m := by
  cases hm : mlookup m i with
  | none =>
      simp only [Option.isSome_none, Bool.false_eq_true, false_iff]
      exact (mlookup_eq_none_iff m i).mp hm
  | some v =>
      simp only [Option.isSome_some, true_iff]
      exact mem_mkeys_of_mlookup hm

theorem mkeys_mmodify {α : Type} (m : List (Nat × α)) (k : Nat) (f : α → α) :
    mkeys (mmodify m k f) = mkeys m := by
  unfold mmodify
  cases h : mlookup m k with
  | none => rfl
  | some v => exact mkeys_mset_of_mem m k (f v) (mem_mkeys_of_mlookup h)

/-! Preservation lemmas for the engine update. -/

theorem mlookup_map_mmodify {α β : Type} (g : α → β) (m : List (Nat × α)) (k : Nat)
    (f : α → α) (hf : ∀ v, g (f v) = g v) (i : Nat) :
    (mlookup (mmodify m k f) i).map g = (mlookup m i).map g := by
  rw [mlookup_mmodify]
  by_cases hik : i = k
  · rw [if_pos hik]
    cases mlookup m i <;> simp [hf]
  · rw [if_neg hik]

theorem modifyTask_tasks (p : consoleRenderer) (k : Nat) (f : task → task) :
    (modifyTask p k f).tasks = p.tasks := rfl

theorem modifyTask_tasksDone (p : consoleRenderer) (k : Nat) (f : task → task) :
    (modifyTask p k f).tasksDone = p.tasksDone := rfl

theorem modifyTask_hasError (p : consoleRenderer) (k : Nat) (f : task → task) :
    (modifyTask p k f).hasError = p.hasError := rfl

theorem modifyTask_allTasks (p : consoleRenderer) (k : Nat) (f : task → task) :
    (modifyTask p k f).allTasks = mmodify p.allTasks k f := rfl

theorem doneTransition_tasks (p : consoleRenderer) (tid : Nat) (te : TaskEvent) :
    (task.doneTransition p tid te).tasks = p.tasks := by
  unfold task.doneTransition
  cases mlookup p.allTasks tid with
  | none => rfl
  | some t =>
      dsimp only
      split
      · split <;> rfl
      · rfl

theorem doneTransition_mkeys (p : consoleRenderer) (tid : Nat) (te : TaskEvent) :
    mkeys (task.doneTransition p tid te).allTasks = mkeys p.allTasks := by
  unfold task.doneTransition
  cases mlookup p.allTasks tid with
  | none => rfl
  | some t =>
      dsimp only
      split
      · split
        · rw [modifyTask_allTasks, modifyTask_allTasks, mkeys_mmodify, mkeys_mmodify]
        · show mkeys (modifyTask p tid _).allTasks = _
          rw [modifyTask_allTasks, mkeys_mmodify]
      · rfl

theorem doneTransition_mlookup_map {β : Type} (g : task → β)
    (hdone : ∀ u : task, g { u with isDone := true } = g u)
    (hsub : ∀ u : task, g { u with subtasksDone := u.subtasksDone + 1 } = g u)
    (p : consoleRenderer) (tid : Nat) (te : TaskEvent) (i : Nat) :
    (mlookup (task.doneTransition p tid te).allTasks i).map g =
      (mlookup p.allTasks i).map g := by
  unfold task.doneTransition
  cases mlookup p.allTasks tid with
  | none => rfl
  | some t =>
      dsimp only
      split
      · split
        · rw [modifyTask_allTasks, modifyTask_allTasks,
            mlookup_map_mmodify g _ _ _ hsub, mlookup_map_mmodify g _ _ _ hdone]
        · show (mlookup (modifyTask p tid _).allTasks i).map g = _
          rw [modifyTask_allTasks, mlookup_map_mmodify g _ _ _ hdone]
      · rfl

theorem task.update_tasks (p : consoleRenderer) (tid : Nat) (te : TaskEvent) :
    (task.update p tid te).tasks = p.tasks := by
  unfold task.update
  dsimp only
  split <;>
    rw [modifyTask_tasks, doneTransition_tasks, modifyTask_tasks]

theorem task.update_mkeys (p : consoleRenderer) (tid : Nat) (te : TaskEvent) :
    mkeys (task.update p tid te).allTasks = mkeys p.allTasks := by
  unfold task.update
  dsimp only
  split <;>
    rw [modifyTask_allTasks, mkeys_mmodify, doneTransition_mkeys,
      modifyTask_allTasks, mkeys_mmodify]

theorem task.update_mlookup_map {β : Type} (g : task → β) (te : TaskEvent)
    (hfields : ∀ u : task, g (task.applyFields te u) = g u)
    (hpost : ∀ u : task, g (task.applyPostFields te u) = g u)
    (hdone : ∀ u : task, g { u with isDone := true } = g u)
    (hsub : ∀ u : task, g { u with subtasksDone := u.subtasksDone + 1 } = g u)
    (p : consoleRenderer) (tid : Nat) (i : Nat) :
    (mlookup (task.update p tid te).allTasks i).map g = (mlookup p.allTasks i).map g := by
  unfold task.update
  dsimp only
  split <;>
    rw [modifyTask_allTasks, mlookup_map_mmodify g _ _ _ hpost,
      doneTransition_mlookup_map g hdone hsub,
      modifyTask_allTasks, mlookup_map_mmodify g _ _ _ hfields]

/-! Characterization of `consoleRenderer.update` by cases. -/

theorem consoleRenderer.update_zero (p : consoleRenderer) (te : TaskEvent)
    (h : te.id = 0) : consoleRenderer.update p te = p := by
  unfold consoleRenderer.update
  rw [if_pos h]

theorem consoleRenderer.update_known (p : consoleRenderer) (te : TaskEvent) (t : task)
    (hid : te.id ≠ 0) (h : mlookup p.allTasks te.id = some t) :
    consoleRenderer.update p te = task.update p te.id te := by
  unfold consoleRenderer.update
  rw [if_neg hid, h]

theorem consoleRenderer.update_new_child (p : consoleRenderer) (te : TaskEvent) (par : task)
    (hid : te.id ≠ 0) (hnew : mlookup p.allTasks te.id = none)
    (hpar : mlookup p.allTasks te.parentID = some par) :
    consoleRenderer.update p te =
      { p with allTasks :=
          (mmodify (mset p.allTasks te.id (newTask te (par.depth + 1))) te.parentID
            (fun parent => { parent with subtasks := parent.subtasks ++ [te.id] })) } := by
  unfold consoleRenderer.update
  rw [if_neg hid, hnew]
  dsimp only
  rw [hpar]

theorem consoleRenderer.update_new_root (p : consoleRenderer) (te : TaskEvent)
    (hid : te.id ≠ 0) (hnew : mlookup p.allTasks te.id = none)
    (hpar : mlookup p.allTasks te.parentID = none) :
    consoleRenderer.update p te =
      { p with allTasks := mset p.allTasks te.id (newTask te 1),
               tasks := p.tasks ++ [te.id] } := by
  unfold consoleRenderer.update
  rw [if_neg hid, hnew]
  dsimp only
  rw [hpar]

theorem mset_mset {α : Type} (m : List (Nat × α)) (k : Nat) (v w : α) :
    mset (mset m k v) k w = mset m k w := by
  induction m with
  | nil => simp [mset]
  | cons hd tl ih =>
      obtain ⟨k', v'⟩ := hd
      rw [mset_cons]
      by_cases hk : k' = k
      · rw [if_pos hk, mset_cons, if_pos rfl, mset_cons, if_pos hk]
      · rw [if_neg hk, mset_cons, if_neg hk, mset_cons, if_neg hk, ih]

theorem mmodify_mset_self {α : Type} (m : List (Nat × α)) (k : Nat) (v : α) (f : α → α) :
    mmodify (mset m k v) k f = mset m k (f v) := by
  unfold mmodify
  rw [mlookup_mset, if_pos rfl]
  dsimp only
  rw [mset_mset]

theorem mmodify_eq_mset {α : Type} {m : List (Nat × α)} {k : Nat} {v : α} (f : α → α)
    (h : mlookup m k = some v) : mmodify m k f = mset m k (f v) := by
  unfold mmodify
  rw [h]

theorem MainLoop.step_rendered {σ : Type} (upd : σ → TaskEvent → σ) (st : LoopState σ)
    (now : Nat) (inp : LoopInput) :
    (MainLoop.step upd st now inp).2 =
      ((st.done || LoopInput.isClosed inp) || limiterAllow st.lastAllow now) := by
  unfold MainLoop.step
  cases inp with
  | tick =>
      dsimp only [LoopInput.isClosed]
      cases hd : st.done with
      | true => simp [hd]
      | false =>
          cases ha : limiterAllow st.lastAllow now with
          | true => simp [hd, ha]
          | false => simp [hd, ha]
  | ev te =>
      dsimp only [LoopInput.isClosed]
      cases hd : st.done with
      | true => simp [hd]
      | false =>
          cases ha : limiterAllow st.lastAllow now with
          | true => simp [hd, ha]
          | false => simp [hd, ha]
  | closed => simp [LoopInput.isClosed]

/-- C9 (amended): applying the event emitted by `cached()` to an existing
task node sets the node's `isCached` flag and overwrites its `endTime` with
the event's zero `EndTime` (the `t.endTime = te.EndTime` assignment in
`task.update` is unconditional); every other field of the node — the done
flag, the error flag and value, the counters, the start and io-start times,
the logs and subtask data — and every other part of the renderer state
(all other nodes, the root task list, `tasksDone`, `hasError`) are
unchanged. -/
theorem cached_event_updates_only_cached_and_endTime (p : consoleRenderer) (i : Nat) (t : task)
    (hid : i ≠ 0) (hex : mlookup p.allTasks i = some t) :
    consoleRenderer.update p (taskExecutor.CachedEvent i) =
      { p with allTasks := mset p.allTasks i { t with endTime := 0, isCached := true } } := by
  rw [consoleRenderer.update_known p (taskExecutor.CachedEvent i) t hid hex]
  unfold task.update
  dsimp only
  simp only [show (taskExecutor.CachedEvent i).id = i from rfl]
  have h1 : (modifyTask p i (task.applyFields (taskExecutor.CachedEvent i))).allTasks =
      mset p.allTasks i { t with endTime := 0 } := by
    rw [modifyTask_allTasks, mmodify_eq_mset _ hex]
    rfl
  have h2 : task.doneTransition
      (modifyTask p i (task.applyFields (taskExecutor.CachedEvent i))) i
      (taskExecutor.CachedEvent i) =
      modifyTask p i (task.applyFields (taskExecutor.CachedEvent i)) := by
    unfold task.doneTransition
    rw [h1, mlookup_mset, if_pos rfl]
    dsimp only
    have hc : (!t.isDone && (taskExecutor.CachedEvent i).isDone) = false := by
      simp [taskExecutor.CachedEvent]
    rw [hc]
    rfl
  rw [h2]
  show modifyTask (modifyTask p i (task.applyFields (taskExecutor.CachedEvent i))) i
      (task.applyPostFields (taskExecutor.CachedEvent i)) = _
  unfold modifyTask
  dsimp only
  rw [mmodify_eq_mset _ hex, mmodify_mset_self]
  rfl

theorem task.update_allTasks (p : consoleRenderer) (tid : Nat) (te : TaskEvent) :
    (task.update p tid te).allTasks =
      mmodify (task.doneTransition (modifyTask p tid (task.applyFields te)) tid te).allTasks
        tid (task.applyPostFields te) := by
  unfold task.update
  dsimp only
  split <;> rfl

theorem task.update_tasksDone (p : consoleRenderer) (tid : Nat) (te : TaskEvent) :
    (task.update p tid te).tasksDone =
      (task.doneTransition (modifyTask p tid (task.applyFields te)) tid te).tasksDone := by
  unfold task.update
  dsimp only
  split <;> rfl

theorem doneTransition_not_fired (p : consoleRenderer) (tid : Nat) (te : TaskEvent) (t : task)
    (h : mlookup p.allTasks tid = some t) (hf : (!t.isDone && te.isDone) = false) :
    task.doneTransition p tid te = p := by
  unfold task.doneTransition
  rw [h]
  dsimp only
  rw [hf]
  rfl

theorem doneTransition_fired_parent (p : consoleRenderer) (tid : Nat) (te : TaskEvent)
    (t : task) (pid : Nat) (q : task) (h : mlookup p.allTasks tid = some t)
    (hpid : t.parentID = pid)
    (hfire : (!t.isDone && te.isDone) = true)
    (hpar : mlookup p.allTasks pid = some q) :
    task.doneTransition p tid te =
      modifyTask (modifyTask p tid (fun u => { u with isDone := true })) pid
        (fun parent => { parent with subtasksDone := parent.subtasksDone + 1 }) := by
  unfold task.doneTransition
  rw [h]
  dsimp only
  rw [hfire, hpid]
  rw [modifyTask_allTasks, mlookup_mmodify]
  by_cases hp : pid = tid
  · rw [if_pos hp, hp, h]
    rfl
  · rw [if_neg hp, hpar]
    rfl

theorem doneTransition_fired_root (p : consoleRenderer) (tid : Nat) (te : TaskEvent)
    (t : task) (pid : Nat) (h : mlookup p.allTasks tid = some t)
    (hpid : t.parentID = pid)
    (hfire : (!t.isDone && te.isDone) = true)
    (hpar : mlookup p.allTasks pid = none) :
    task.doneTransition p tid te =
      { modifyTask p tid (fun u => { u with isDone := true }) with
          tasksDone := p.tasksDone + 1 } := by
  have hp : pid ≠ tid := by
    intro e
    rw [e, h] at hpar
    exact Option.noConfusion hpar
  unfold task.doneTransition
  rw [h]
  dsimp only
  rw [hfire, hpid]
  rw [modifyTask_allTasks, mlookup_mmodify, if_neg hp, hpar]
  rfl

theorem afterErr_allTasks (te : TaskEvent) (q : consoleRenderer) :
    (afterErr te q).allTasks = q.allTasks := by
  unfold afterErr
  split <;> rfl

theorem afterErr_tasksDone (te : TaskEvent) (q : consoleRenderer) :
    (afterErr te q).tasksDone = q.tasksDone := by
  unfold afterErr
  split <;> rfl

theorem task.update_eq (p : consoleRenderer) (tid : Nat) (te : TaskEvent) :
    task.update p tid te =
      afterErr te (modifyTask
        (task.doneTransition (modifyTask p tid (task.applyFields te)) tid te)
        tid (task.applyPostFields te)) := rfl

/-- C2: for a task node that exists in the engine's map, the done
transition happens at most once.  If the node is not yet done, an event
with `IsDone` sets the node's `isDone` flag and increments exactly one
counter: the parent's `subtasksDone` when the node's `parentID` is a key of
the map (all other nodes' `subtasksDone` and the renderer's `tasksDone`
are unchanged), otherwise the renderer-level `tasksDone` (and no
`subtasksDone` changes, the parent key staying absent).  If the node is
already done, any further event — `IsDone` or not — leaves `isDone` true,
`tasksDone` and every node's `subtasksDone` unchanged. -/
theorem done_transition_once (p : consoleRenderer) (te : TaskEvent) (t : task)
    (hid : te.id ≠ 0) (hex : mlookup p.allTasks te.id = some t) :
    (t.isDone = false → te.isDone = true →
      ((mlookup (consoleRenderer.update p te).allTasks te.id).map task.isDone = some true ∧
       (∀ par, mlookup p.allTasks t.parentID = some par →
          (consoleRenderer.update p te).tasksDone = p.tasksDone ∧
          (mlookup (consoleRenderer.update p te).allTasks t.parentID).map task.subtasksDone =
            (mlookup p.allTasks t.parentID).map (fun u => u.subtasksDone + 1)) ∧
       (mlookup p.allTasks t.parentID = none →
          (consoleRenderer.update p te).tasksDone = p.tasksDone + 1 ∧
          mlookup (consoleRenderer.update p te).allTasks t.parentID = none) ∧
       (∀ j, j ≠ t.parentID →
          (mlookup (consoleRenderer.update p te).allTasks j).map task.subtasksDone =
            (mlookup p.allTasks j).map task.subtasksDone))) ∧
    (t.isDone = true →
      ((mlookup (consoleRenderer.update p te).allTasks te.id).map task.isDone = some true ∧
       (consoleRenderer.update p te).tasksDone = p.tasksDone ∧
       (∀ j, (mlookup (consoleRenderer.update p te).allTasks j).map task.subtasksDone =
          (mlookup p.allTasks j).map task.subtasksDone))) := by
  rw [consoleRenderer.update_known p te t hid hex, task.update_eq]
  have hlook1 : mlookup (modifyTask p te.id (task.applyFields te)).allTasks te.id =
      some (task.applyFields te t) := by
    rw [modifyTask_allTasks, mlookup_mmodify, if_pos rfl, hex]
    rfl
  constructor
  · -- the done transition fires
    intro hnot hdone
    have hfire : (!(task.applyFields te t).isDone && te.isDone) = true := by
      have hi : (task.applyFields te t).isDone = t.isDone := rfl
      rw [hi, hnot, hdone]
      rfl
    refine ⟨?_, ?_, ?_, ?_⟩
    · -- the task's isDone flag is set
      rw [afterErr_allTasks, modifyTask_allTasks]
      rw [mlookup_map_mmodify task.isDone
        (task.doneTransition (modifyTask p te.id (task.applyFields te)) te.id te).allTasks
        te.id (task.applyPostFields te) (fun u => rfl) te.id]
      cases hpar : mlookup p.allTasks t.parentID with
      | some q =>
          have hq : mlookup (modifyTask p te.id (task.applyFields te)).allTasks t.parentID =
              some (if t.parentID = te.id then task.applyFields te t else q) := by
            rw [modifyTask_allTasks, mlookup_mmodify]
            by_cases hp : t.parentID = te.id
            · rw [if_pos hp, if_pos hp, hp, hex]
              rfl
            · rw [if_neg hp, if_neg hp, hpar]
          rw [doneTransition_fired_parent (modifyTask p te.id (task.applyFields te)) te.id te
            (task.applyFields te t) t.parentID _ hlook1 rfl hfire hq]
          rw [modifyTask_allTasks]
          rw [mlookup_map_mmodify task.isDone
            (modifyTask (modifyTask p te.id (task.applyFields te)) te.id
              (fun u => { u with isDone := true })).allTasks
            t.parentID
            (fun parent => { parent with subtasksDone := parent.subtasksDone + 1 })
            (fun u => rfl) te.id]
          rw [modifyTask_allTasks, mlookup_mmodify, if_pos rfl, hlook1]
          rfl
      | none =>
          have hq : mlookup (modifyTask p te.id (task.applyFields te)).allTasks t.parentID =
              none := by
            have hp : t.parentID ≠ te.id := by
              intro e
              rw [e, hex] at hpar
              exact Option.noConfusion hpar
            rw [modifyTask_allTasks, mlookup_mmodify, if_neg hp, hpar]
          rw [doneTransition_fired_root (modifyTask p te.id (task.applyFields te)) te.id te
            (task.applyFields te t) t.parentID hlook1 rfl hfire hq]
          show (mlookup (modifyTask (modifyTask p te.id (task.applyFields te)) te.id
            (fun u => { u with isDone := true })).allTasks te.id).map task.isDone = some true
          rw [modifyTask_allTasks, mlookup_mmodify, if_pos rfl, hlook1]
          rfl
    · -- parent exists: its subtasksDone is bumped, tasksDone is not
      intro par hpar
      have hq : mlookup (modifyTask p te.id (task.applyFields te)).allTasks t.parentID =
          some (if t.parentID = te.id then task.applyFields te t else par) := by
        rw [modifyTask_allTasks, mlookup_mmodify]
        by_cases hp : t.parentID = te.id
        · rw [if_pos hp, if_pos hp, hp, hex]
          rfl
        · rw [if_neg hp, if_neg hp, hpar]
      rw [doneTransition_fired_parent (modifyTask p te.id (task.applyFields te)) te.id te
        (task.applyFields te t) t.parentID _ hlook1 rfl hfire hq]
      constructor
      · rw [afterErr_tasksDone]
        rfl
      · rw [afterErr_allTasks, modifyTask_allTasks]
        rw [mlookup_map_mmodify task.subtasksDone
          (modifyTask (modifyTask (modifyTask p te.id (task.applyFields te)) te.id
              (fun u => { u with isDone := true })) t.parentID
            (fun parent => { parent with subtasksDone := parent.subtasksDone + 1 })).allTasks
          te.id (task.applyPostFields te) (fun u => rfl) t.parentID]
        rw [modifyTask_allTasks, mlookup_mmodify, if_pos rfl]
        rw [modifyTask_allTasks]
        have hstep : (mlookup (mmodify (modifyTask p te.id (task.applyFields te)).allTasks
            te.id (fun u => { u with isDone := true })) t.parentID).map task.subtasksDone =
            (mlookup p.allTasks t.parentID).map task.subtasksDone := by
          rw [mlookup_map_mmodify task.subtasksDone
            (modifyTask p te.id (task.applyFields te)).allTasks te.id
            (fun u => { u with isDone := true }) (fun u => rfl) t.parentID]
          rw [modifyTask_allTasks]
          rw [mlookup_map_mmodify task.subtasksDone p.allTasks te.id
            (task.applyFields te) (fun u => rfl) t.parentID]
        rw [hpar] at hstep
        cases hm : mlookup (mmodify (modifyTask p te.id (task.applyFields te)).allTasks
            te.id (fun u => { u with isDone := true })) t.parentID with
        | none =>
            rw [hm] at hstep
            exact absurd hstep (by simp)
        | some w =>
            rw [hm] at hstep
            have hws : w.subtasksDone = par.subtasksDone := by
              simpa using hstep
            rw [hpar]
            simpa using hws
    · -- no parent: tasksDone is bumped and the parent key stays absent
      intro hpar
      have hpne : t.parentID ≠ te.id := by
        intro e
        rw [e, hex] at hpar
        exact Option.noConfusion hpar
      have hq : mlookup (modifyTask p te.id (task.applyFields te)).allTasks t.parentID =
          none := by
        rw [modifyTask_allTasks, mlookup_mmodify, if_neg hpne, hpar]
      rw [doneTransition_fired_root (modifyTask p te.id (task.applyFields te)) te.id te
        (task.applyFields te t) t.parentID hlook1 rfl hfire hq]
      constructor
      · rw [afterErr_tasksDone]
        rfl
      · rw [afterErr_allTasks, modifyTask_allTasks]
        show mlookup (mmodify (modifyTask (modifyTask p te.id (task.applyFields te)) te.id
          (fun u => { u with isDone := true })).allTasks te.id (task.applyPostFields te))
          t.parentID = none
        rw [mlookup_mmodify, if_neg hpne]
        rw [modifyTask_allTasks, mlookup_mmodify, if_neg hpne]
        rw [modifyTask_allTasks, mlookup_mmodify, if_neg hpne, hpar]
    · -- all other subtasksDone counters unchanged
      intro j hj
      cases hpar : mlookup p.allTasks t.parentID with
      | some q =>
          have hq : mlookup (modifyTask p te.id (task.applyFields te)).allTasks t.parentID =
              some (if t.parentID = te.id then task.applyFields te t else q) := by
            rw [modifyTask_allTasks, mlookup_mmodify]
            by_cases hp : t.parentID = te.id
            · rw [if_pos hp, if_pos hp, hp, hex]
              rfl
            · rw [if_neg hp, if_neg hp, hpar]
          rw [doneTransition_fired_parent (modifyTask p te.id (task.applyFields te)) te.id te
            (task.applyFields te t) t.parentID _ hlook1 rfl hfire hq]
          rw [afterErr_allTasks, modifyTask_allTasks]
          rw [mlookup_map_mmodify task.subtasksDone
            (modifyTask (modifyTask (modifyTask p te.id (task.applyFields te)) te.id
                (fun u => { u with isDone := true })) t.parentID
              (fun parent => { parent with subtasksDone := parent.subtasksDone + 1 })).allTasks
            te.id (task.applyPostFields te) (fun u => rfl) j]
          rw [modifyTask_allTasks, mlookup_mmodify, if_neg hj]
          rw [modifyTask_allTasks]
          rw [mlookup_map_mmodify task.subtasksDone
            (modifyTask p te.id (task.applyFields te)).allTasks te.id
            (fun u => { u with isDone := true }) (fun u => rfl) j]
          rw [modifyTask_allTasks]
          rw [mlookup_map_mmodify task.subtasksDone p.allTasks te.id
            (task.applyFields te) (fun u => rfl) j]
      | none =>
          have hpne : t.parentID ≠ te.id := by
            intro e
            rw [e, hex] at hpar
            exact Option.noConfusion hpar
          have hq : mlookup (modifyTask p te.id (task.applyFields te)).allTasks t.parentID =
              none := by
            rw [modifyTask_allTasks, mlookup_mmodify, if_neg hpne, hpar]
          rw [doneTransition_fired_root (modifyTask p te.id (task.applyFields te)) te.id te
            (task.applyFields te t) t.parentID hlook1 rfl hfire hq]
          rw [afterErr_allTasks, modifyTask_allTasks]
          show (mlookup (mmodify (modifyTask (modifyTask p te.id (task.applyFields te)) te.id
            (fun u => { u with isDone := true })).allTasks te.id (task.applyPostFields te))
            j).map task.subtasksDone = (mlookup p.allTasks j).map task.subtasksDone
          rw [mlookup_map_mmodify task.subtasksDone
            (modifyTask (modifyTask p te.id (task.applyFields te)) te.id
              (fun u => { u with isDone := true })).allTasks
            te.id (task.applyPostFields te) (fun u => rfl) j]
          rw [modifyTask_allTasks]
          rw [mlookup_map_mmodify task.subtasksDone
            (modifyTask p te.id (task.applyFields te)).allTasks te.id
            (fun u => { u with isDone := true }) (fun u => rfl) j]
          rw [modifyTask_allTasks]
          rw [mlookup_map_mmodify task.subtasksDone p.allTasks te.id
            (task.applyFields te) (fun u => rfl) j]
  · -- already done: idempotent, no counter changes
    intro hdone
    have hf : (!(task.applyFields te t).isDone && te.isDone) = false := by
      have hi : (task.applyFields te t).isDone = t.isDone := rfl
      rw [hi, hdone]
      rfl
    rw [doneTransition_not_fired (modifyTask p te.id (task.applyFields te)) te.id te
      (task.applyFields te t) hlook1 hf]
    refine ⟨?_, ?_, ?_⟩
    · rw [afterErr_allTasks, modifyTask_allTasks]
      rw [mlookup_map_mmodify task.isDone
        (modifyTask p te.id (task.applyFields te)).allTasks te.id
        (task.applyPostFields te) (fun u => rfl) te.id]
      rw [modifyTask_allTasks, mlookup_mmodify, if_pos rfl, hex]
      show some (task.applyFields te t).isDone = some true
      have hi : (task.applyFields te t).isDone = t.isDone := rfl
      rw [hi, hdone]
    · rw [afterErr_tasksDone]
      rfl
    · intro j
      rw [afterErr_allTasks, modifyTask_allTasks]
      rw [mlookup_map_mmodify task.subtasksDone
        (modifyTask p te.id (task.applyFields te)).allTasks te.id
        (task.applyPostFields te) (fun u => rfl) j]
      rw [modifyTask_allTasks]
      rw [mlookup_map_mmodify task.subtasksDone p.allTasks te.id
        (task.applyFields te) (fun u => rfl) j]

theorem task.update_counters (p : consoleRenderer) (tid : Nat) (te : TaskEvent) :
    (mlookup (task.update p tid te).allTasks tid).map
        (fun u => (u.current, u.total, u.ioStartTime)) =
      (mlookup p.allTasks tid).map (fun u =>
        (if 0 < te.current then te.current else u.current,
         if 0 < te.total then te.total else u.total,
         if te.ioStartTime ≠ 0 then te.ioStartTime else u.ioStartTime)) := by
  rw [task.update_eq, afterErr_allTasks, modifyTask_allTasks]
  rw [mlookup_map_mmodify (fun u : task => (u.current, u.total, u.ioStartTime))
    (task.doneTransition (modifyTask p tid (task.applyFields te)) tid te).allTasks
    tid (task.applyPostFields te) (fun u => rfl) tid]
  rw [doneTransition_mlookup_map (fun u : task => (u.current, u.total, u.ioStartTime))
    (fun u => rfl) (fun u => rfl)]
  rw [modifyTask_allTasks, mlookup_mmodify, if_pos rfl]
  cases mlookup p.allTasks tid with
  | none => rfl
  | some u => rfl

theorem reset_event_update (p : consoleRenderer) (tid : Nat) (t : task)
    (total now : Nat) (hid : tid ≠ 0) (hnow : 0 < now)
    (hex : mlookup p.allTasks tid = some t) :
    consoleRenderer.update p (copyTask.ResetEvent tid total now) =
      { p with allTasks := (mset p.allTasks tid
          { t with endTime := 0, ioStartTime := now,
                   total := if 0 < total then total else t.total }) } := by
  rw [consoleRenderer.update_known p (copyTask.ResetEvent tid total now) t hid hex]
  rw [task.update_eq]
  simp only [show (copyTask.ResetEvent tid total now).id = tid from rfl]
  have happ : task.applyFields (copyTask.ResetEvent tid total now) t =
      { t with endTime := 0, ioStartTime := now,
               total := if 0 < total then total else t.total } := by
    simp [task.applyFields, copyTask.ResetEvent, hnow.ne']
  have h1 : mmodify p.allTasks tid (task.applyFields (copyTask.ResetEvent tid total now)) =
      (mset p.allTasks tid
        { t with endTime := 0, ioStartTime := now,
                 total := if 0 < total then total else t.total }) := by
    rw [mmodify_eq_mset _ hex, happ]
  have hlk : mlookup (modifyTask p tid
      (task.applyFields (copyTask.ResetEvent tid total now))).allTasks tid =
      some { t with endTime := 0, ioStartTime := now,
                    total := if 0 < total then total else t.total } := by
    rw [modifyTask_allTasks, h1, mlookup_mset, if_pos rfl]
  have hf : ∀ u : task, (!u.isDone && (copyTask.ResetEvent tid total now).isDone) = false := by
    intro u
    simp [copyTask.ResetEvent]
  rw [doneTransition_not_fired _ tid (copyTask.ResetEvent tid total now) _ hlk (hf _)]
  show modifyTask (modifyTask p tid (task.applyFields (copyTask.ResetEvent tid total now))) tid
    (task.applyPostFields (copyTask.ResetEvent tid total now)) = _
  unfold modifyTask
  dsimp only
  rw [h1, mmodify_mset_self]
  rfl

/-- C1 (amended): for a task node that exists in the engine's map, an
incoming event whose `Current` (resp. `Total`) field is 0 leaves the
node's `current` (resp. `total`) unchanged, and a positive field
overwrites the counter with the event's value — so the counters never
decrease exactly when the events for the id carry non-decreasing values.
The reset event emitted by `CopyTask.Reset` (`Current == 0`, fresh
`IOStartTime`) does NOT set `current` to 0: it leaves `current` (and every
other field except `endTime`, `ioStartTime` and — when nonzero — `total`)
unchanged and refreshes the node's `ioStartTime`. -/
theorem current_total_update_and_reset (p : consoleRenderer) (te : TaskEvent) (t : task)
    (hid : te.id ≠ 0) (hex : mlookup p.allTasks te.id = some t) :
    ((mlookup (consoleRenderer.update p te).allTasks te.id).map task.current =
      some (if 0 < te.current then te.current else t.current)) ∧
    ((mlookup (consoleRenderer.update p te).allTasks te.id).map task.total =
      some (if 0 < te.total then te.total else t.total)) ∧
    (te.current = 0 ∨ t.current ≤ te.current →
      ∃ c, (mlookup (consoleRenderer.update p te).allTasks te.id).map task.current = some c ∧
        t.current ≤ c) ∧
    (∀ total now, 0 < now →
      consoleRenderer.update p (copyTask.ResetEvent te.id total now) =
        { p with allTasks := (mset p.allTasks te.id
            { t with endTime := 0, ioStartTime := now,
                     total := if 0 < total then total else t.total }) }) := by
  have hcnt : (mlookup (consoleRenderer.update p te).allTasks te.id).map
      (fun u => (u.current, u.total, u.ioStartTime)) =
      some (if 0 < te.current then te.current else t.current,
        if 0 < te.total then te.total else t.total,
        if te.ioStartTime ≠ 0 then te.ioStartTime else t.ioStartTime) := by
    rw [consoleRenderer.update_known p te t hid hex, task.update_counters, hex]
    rfl
  have hcur : (mlookup (consoleRenderer.update p te).allTasks te.id).map task.current =
      some (if 0 < te.current then te.current else t.current) := by
    cases hm : mlookup (consoleRenderer.update p te).allTasks te.id with
    | none => rw [hm] at hcnt; exact absurd hcnt (by simp)
    | some u =>
        rw [hm] at hcnt
        simp only [Option.map_some', Option.some.injEq, Prod.mk.injEq] at hcnt
        show some u.current = _
        exact congrArg some hcnt.1
  have htot : (mlookup (consoleRenderer.update p te).allTasks te.id).map task.total =
      some (if 0 < te.total then te.total else t.total) := by
    cases hm : mlookup (consoleRenderer.update p te).allTasks te.id with
    | none => rw [hm] at hcnt; exact absurd hcnt (by simp)
    | some u =>
        rw [hm] at hcnt
        simp only [Option.map_some', Option.some.injEq, Prod.mk.injEq] at hcnt
        show some u.total = _
        exact congrArg some hcnt.2.1
  refine ⟨hcur, htot, ?_, ?_⟩
  · intro hmono
    refine ⟨if 0 < te.current then te.current else t.current, hcur, ?_⟩
    rcases hmono with h0 | hle
    · rw [h0]
      simp
    · by_cases hpos : 0 < te.current
      · rw [if_pos hpos]
        exact hle
      · rw [if_neg hpos]
  · intro total now hnow
    exact reset_event_update p te.id t total now hid hnow hex

/-! Trace renderer lemmas. -/

theorem countStart_append (i : Nat) (a b : List TraceLine) :
    countStart i (a ++ b) = countStart i a + countStart i b := by
  simp [countStart, List.filter_append]

theorem countDone_append (i : Nat) (a b : List TraceLine) :
    countDone i (a ++ b) = countDone i a + countDone i b := by
  simp [countDone, List.filter_append]

theorem hasStartLine_append (i : Nat) (a b : List TraceLine) :
    hasStartLine i (a ++ b) = (hasStartLine i a || hasStartLine i b) := by
  simp [hasStartLine, List.any_append]

theorem hasDoneLine_append (i : Nat) (a b : List TraceLine) :
    hasDoneLine i (a ++ b) = (hasDoneLine i a || hasDoneLine i b) := by
  simp [hasDoneLine, List.any_append]

theorem hasStartLine_of_countStart (i : Nat) (a : List TraceLine)
    (h : countStart i a ≠ 0) : hasStartLine i a = true := by
  induction a with
  | nil => simp [countStart] at h
  | cons l rest ih =>
      cases hl : TraceLine.isStartOf i l with
      | true => simp [hasStartLine, hl]
      | false =>
          have : countStart i rest ≠ 0 := by
            simpa [countStart, List.filter_cons, hl] using h
          have := ih this
          simp [hasStartLine, hl]
          simpa [hasStartLine] using this

theorem countStart_pos_of_hasStartLine (i : Nat) (a : List TraceLine)
    (h : hasStartLine i a = true) : countStart i a ≠ 0 := by
  induction a with
  | nil => simp [hasStartLine] at h
  | cons l rest ih =>
      cases hl : TraceLine.isStartOf i l with
      | true => simp [countStart, List.filter_cons, hl]
      | false =>
          have hr : hasStartLine i rest = true := by
            simpa [hasStartLine, hl] using h
          have := ih hr
          simpa [countStart, List.filter_cons, hl] using this

theorem hasDoneLine_take_false (i : Nat) (b : List TraceLine) (n : Nat)
    (hb : hasDoneLine i b = false) : hasDoneLine i (b.take n) = false := by
  cases h : hasDoneLine i (b.take n) with
  | false => rfl
  | true =>
      exfalso
      simp only [hasDoneLine, List.any_eq_true] at h
      obtain ⟨l, hl, hd⟩ := h
      have hmem := List.take_subset n b hl
      have hbt : hasDoneLine i b = true := by
        simp only [hasDoneLine, List.any_eq_true]
        exact ⟨l, hmem, hd⟩
      rw [hb] at hbt
      exact Bool.noConfusion hbt

theorem startBeforeDone_append_of_no_done (i : Nat) (a b : List TraceLine)
    (hb : hasDoneLine i b = false) (ha : startBeforeDone i a) :
    startBeforeDone i (a ++ b) := by
  intro n hd
  rw [List.take_append_eq_append_take] at hd ⊢
  rw [hasDoneLine_append] at hd
  rw [hasStartLine_append]
  rcases Bool.or_eq_true_iff.mp hd with h1 | h2
  · rw [ha n h1]
    rfl
  · rw [hasDoneLine_take_false i b _ hb] at h2
    exact Bool.noConfusion h2

theorem startBeforeDone_append_of_hasStart (i : Nat) (a b : List TraceLine)
    (ha : hasStartLine i a = true) (hsbd : startBeforeDone i a) :
    startBeforeDone i (a ++ b) := by
  intro n hd
  rw [List.take_append_eq_append_take] at hd ⊢
  rw [hasStartLine_append]
  by_cases hn : n ≤ a.length
  · have h0 : n - a.length = 0 := by omega
    rw [h0, List.take_zero, List.append_nil] at hd
    rw [h0, List.take_zero]
    rw [hsbd n hd]
    rfl
  · have hta : a.take n = a := List.take_of_length_le (by omega)
    rw [hta, ha]
    rfl

theorem traceUpdate_unknown_shape (tr : traceRenderer) (now : Nat) (te : TaskEvent)
    (h : mlookup tr.knownTasks te.id = none) :
    (traceRenderer.update tr now te).knownTasks =
      mset tr.knownTasks te.id { started := te.startTime, name := te.name } ∧
    (traceRenderer.update tr now te).buf =
      tr.buf ++ [TraceLine.start (now - tr.startTime) te.id te.name] := by
  unfold traceRenderer.update
  rw [h]
  exact ⟨rfl, rfl⟩

theorem countStart_log_map (j : Nat) (xs : List (List Nat)) (h2 : Nat) (rn : String)
    (lid : Nat) :
    countStart j (xs.map (fun line => TraceLine.log h2 rn lid line)) = 0 := by
  induction xs with
  | nil => rfl
  | cons x rest ih => simp [countStart, List.filter_cons, TraceLine.isStartOf, ih]

theorem countDone_log_map (j : Nat) (xs : List (List Nat)) (h2 : Nat) (rn : String)
    (lid : Nat) :
    countDone j (xs.map (fun line => TraceLine.log h2 rn lid line)) = 0 := by
  induction xs with
  | nil => rfl
  | cons x rest ih => simp [countDone, List.filter_cons, TraceLine.isDoneOf, ih]

theorem hasDoneLine_log_map (j : Nat) (xs : List (List Nat)) (h2 : Nat) (rn : String)
    (lid : Nat) :
    hasDoneLine j (xs.map (fun line => TraceLine.log h2 rn lid line)) = false := by
  induction xs with
  | nil => rfl
  | cons x rest ih => simp [hasDoneLine, TraceLine.isDoneOf, ih]

theorem traceUpdate_known_shape (tr : traceRenderer) (now : Nat) (te : TaskEvent)
    (tk : knownTask) (h : mlookup tr.knownTasks te.id = some tk) :
    (traceRenderer.update tr now te).knownTasks = tr.knownTasks ∧
    ∃ logL doneL,
      (traceRenderer.update tr now te).buf = tr.buf ++ (logL ++ doneL) ∧
      (∀ j, countStart j logL = 0 ∧ countDone j logL = 0 ∧ hasDoneLine j logL = false) ∧
      (te.isDone = true →
        ∃ hdr nm cp sd em, doneL = [TraceLine.done hdr te.id nm cp sd em]) ∧
      (te.isDone = false → doneL = []) := by
  unfold traceRenderer.update
  rw [h]
  dsimp only
  by_cases hl : te.logs ≠ []
  · rw [if_pos hl]
    cases hd : te.isDone with
    | true =>
        refine ⟨rfl, (splitNL (cutSuffixNL te.logs)).map
          (fun line => TraceLine.log (now - tr.startTime) tr.name te.id line),
          [TraceLine.done (now - tr.startTime) te.id tk.name
            (if te.current ≠ 0 then some (te.current, if te.total ≠ 0 then some te.total else none)
             else none)
            (now - tk.started) (if te.hasErr then some te.err else none)], ?_, ?_, ?_, ?_⟩
        · simp
        · intro j
          exact ⟨countStart_log_map j _ _ _ _, countDone_log_map j _ _ _ _,
            hasDoneLine_log_map j _ _ _ _⟩
        · intro _
          exact ⟨_, _, _, _, _, rfl⟩
        · intro hf
          exact Bool.noConfusion hf
    | false =>
        refine ⟨rfl, (splitNL (cutSuffixNL te.logs)).map
          (fun line => TraceLine.log (now - tr.startTime) tr.name te.id line), [], ?_, ?_, ?_, ?_⟩
        · simp
        · intro j
          exact ⟨countStart_log_map j _ _ _ _, countDone_log_map j _ _ _ _,
            hasDoneLine_log_map j _ _ _ _⟩
        · intro hf
          exact Bool.noConfusion hf
        · intro _
          rfl
  · rw [if_neg hl]
    cases hd : te.isDone with
    | true =>
        refine ⟨rfl, [],
          [TraceLine.done (now - tr.startTime) te.id tk.name
            (if te.current ≠ 0 then some (te.current, if te.total ≠ 0 then some te.total else none)
             else none)
            (now - tk.started) (if te.hasErr then some te.err else none)], ?_, ?_, ?_, ?_⟩
        · simp
        · intro j
          exact ⟨rfl, rfl, rfl⟩
        · intro _
          exact ⟨_, _, _, _, _, rfl⟩
        · intro hf
          exact Bool.noConfusion hf
    | false =>
        refine ⟨rfl, [], [], ?_, ?_, ?_, ?_⟩
        · simp
        · intro j
          exact ⟨rfl, rfl, rfl⟩
        · intro hf
          exact Bool.noConfusion hf
        · intro _
          rfl

theorem traceFold_counts (i : Nat) (tes : List (Nat × TaskEvent)) :
    ∀ (tr : traceRenderer) (seen : Bool),
    (mlookup tr.knownTasks i).isSome = seen →
    hasStartLine i tr.buf = seen →
    countStart i tr.buf = (if seen then 1 else 0) →
    startBeforeDone i tr.buf →
    (countStart i (foldTrace tr tes).buf =
       (if (seen || tes.any (fun pr => pr.2.id == i)) then 1 else 0)) ∧
    (countDone i (foldTrace tr tes).buf = countDone i tr.buf + laterDoneCount i seen tes) ∧
    startBeforeDone i (foldTrace tr tes).buf := by
  induction tes with
  | nil =>
      intro tr seen h1 h2 h3 h4
      refine ⟨?_, ?_, h4⟩
      · simpa [foldTrace] using h3
      · simp [foldTrace, laterDoneCount]
  | cons pr rest ih =>
      intro tr seen h1 h2 h3 h4
      obtain ⟨now, te⟩ := pr
      have hfold : foldTrace tr ((now, te) :: rest) =
          foldTrace (traceRenderer.update tr now te) rest := rfl
      rw [hfold]
      cases hk : mlookup tr.knownTasks te.id with
      | none =>
          -- first event for te.id: START line appended, te.id becomes known
          obtain ⟨hkn, hbuf⟩ := traceUpdate_unknown_shape tr now te hk
          have hseen : seen = false ∨ te.id ≠ i := by
            by_cases hti : te.id = i
            · left
              rw [← h1, ← hti, hk]
              rfl
            · right
              exact hti
          by_cases hti : te.id = i
          · -- it is our id: seen must be false
            have hsf : seen = false := by
              rcases hseen with h | h
              · exact h
              · exact absurd hti h
            subst hsf
            subst hti
            have h1' : (mlookup (traceRenderer.update tr now te).knownTasks te.id).isSome =
                true := by
              rw [hkn, mlookup_mset, if_pos rfl]
              rfl
            have h2' : hasStartLine te.id (traceRenderer.update tr now te).buf = true := by
              rw [hbuf, hasStartLine_append, h2]
              simp [hasStartLine, TraceLine.isStartOf]
            have h3' : countStart te.id (traceRenderer.update tr now te).buf = 1 := by
              rw [hbuf, countStart_append, h3]
              simp [countStart, TraceLine.isStartOf]
            have h4' : startBeforeDone te.id (traceRenderer.update tr now te).buf := by
              rw [hbuf]
              refine startBeforeDone_append_of_no_done te.id _ _ ?_ h4
              simp [hasDoneLine, TraceLine.isDoneOf]
            obtain ⟨c1, c2, c3⟩ := ih (traceRenderer.update tr now te) true h1' h2' (by
              rw [h3']
              rfl) h4'
            refine ⟨?_, ?_, c3⟩
            · rw [c1]
              simp
            · rw [c2]
              rw [hbuf, countDone_append]
              have : countDone te.id [TraceLine.start (now - tr.startTime) te.id te.name] = 0 := by
                simp [countDone, TraceLine.isDoneOf]
              rw [this]
              have hldc : laterDoneCount te.id false ((now, te) :: rest) =
                  laterDoneCount te.id true rest := by
                simp [laterDoneCount]
              rw [hldc]
              omega
          · -- a different id starts: nothing for i changes
            have h1' : (mlookup (traceRenderer.update tr now te).knownTasks i).isSome =
                seen := by
              rw [hkn, mlookup_mset, if_neg (fun e => hti e.symm)]
              exact h1
            have hnostart : countStart i [TraceLine.start (now - tr.startTime) te.id te.name]
                = 0 := by
              simp [countStart, TraceLine.isStartOf, hti]
            have h2' : hasStartLine i (traceRenderer.update tr now te).buf = seen := by
              rw [hbuf, hasStartLine_append, h2]
              have : hasStartLine i [TraceLine.start (now - tr.startTime) te.id te.name]
                  = false := by
                simp [hasStartLine, TraceLine.isStartOf, hti]
              rw [this]
              simp
            have h3' : countStart i (traceRenderer.update tr now te).buf =
                (if seen then 1 else 0) := by
              rw [hbuf, countStart_append, h3, hnostart]
              simp
            have h4' : startBeforeDone i (traceRenderer.update tr now te).buf := by
              rw [hbuf]
              refine startBeforeDone_append_of_no_done i _ _ ?_ h4
              simp [hasDoneLine, TraceLine.isDoneOf]
            obtain ⟨c1, c2, c3⟩ := ih (traceRenderer.update tr now te) seen h1' h2' h3' h4'
            refine ⟨?_, ?_, c3⟩
            · rw [c1]
              have : ((now, te) :: rest).any (fun pr => pr.2.id == i) =
                  rest.any (fun pr => pr.2.id == i) := by
                simp [hti]
              rw [this]
            · rw [c2]
              rw [hbuf, countDone_append]
              have : countDone i [TraceLine.start (now - tr.startTime) te.id te.name] = 0 := by
                simp [countDone, TraceLine.isDoneOf]
              rw [this]
              have hldc : laterDoneCount i seen ((now, te) :: rest) =
                  laterDoneCount i seen rest := by
                simp [laterDoneCount, hti]
              rw [hldc]
              omega
      | some tk =>
          -- te.id already known: maybe log lines, maybe one DONE line
          obtain ⟨hkn, logL, doneL, hbuf, hlogL, hdoneT, hdoneF⟩ :=
            traceUpdate_known_shape tr now te tk hk
          have hnostart : countStart i doneL = 0 := by
            cases hd : te.isDone with
            | true =>
                obtain ⟨hdr, nm, cp, sd, em, hD⟩ := hdoneT hd
                rw [hD]
                simp [countStart, TraceLine.isStartOf]
            | false =>
                rw [hdoneF hd]
                rfl
          have h1' : (mlookup (traceRenderer.update tr now te).knownTasks i).isSome = seen := by
            rw [hkn]
            exact h1
          have h2' : hasStartLine i (traceRenderer.update tr now te).buf = seen := by
            rw [hbuf, hasStartLine_append, h2]
            have : hasStartLine i (logL ++ doneL) = false := by
              cases hh : hasStartLine i (logL ++ doneL) with
              | false => rfl
              | true =>
                  exfalso
                  have := countStart_pos_of_hasStartLine i _ hh
                  rw [countStart_append, (hlogL i).1, hnostart] at this
                  exact this rfl
            rw [this]
            simp
          have h3' : countStart i (traceRenderer.update tr now te).buf =
              (if seen then 1 else 0) := by
            rw [hbuf, countStart_append, countStart_append, h3, (hlogL i).1, hnostart]
            simp
          have h4' : startBeforeDone i (traceRenderer.update tr now te).buf := by
            rw [hbuf]
            by_cases hti : te.id = i
            · -- our id is known: seen = true, so a START line already sits in tr.buf
              have hst : seen = true := by
                rw [← h1, ← hti, hk]
                rfl
              exact startBeforeDone_append_of_hasStart i _ _ (by rw [h2, hst]) h4
            · -- other id: the appended lines carry no DONE for i
              refine startBeforeDone_append_of_no_done i _ _ ?_ h4
              rw [hasDoneLine_append, (hlogL i).2.2]
              cases hd : te.isDone with
              | true =>
                  obtain ⟨hdr, nm, cp, sd, em, hD⟩ := hdoneT hd
                  rw [hD]
                  simp [hasDoneLine, TraceLine.isDoneOf, hti]
              | false =>
                  rw [hdoneF hd]
                  rfl
          obtain ⟨c1, c2, c3⟩ := ih (traceRenderer.update tr now te) seen h1' h2' h3' h4'
          refine ⟨?_, ?_, c3⟩
          · rw [c1]
            by_cases hti : te.id = i
            · have hst : seen = true := by
                rw [← h1, ← hti, hk]
                rfl
              rw [hst]
              simp
            · have : ((now, te) :: rest).any (fun pr => pr.2.id == i) =
                  rest.any (fun pr => pr.2.id == i) := by
                simp [hti]
              rw [this]
          · rw [c2, hbuf, countDone_append, countDone_append, (hlogL i).2.1]
            have hdc : countDone i doneL =
                (if te.id = i ∧ te.isDone = true then 1 else 0) := by
              cases hd : te.isDone with
              | true =>
                  obtain ⟨hdr, nm, cp, sd, em, hD⟩ := hdoneT hd
                  rw [hD]
                  by_cases hti : te.id = i
                  · simp [countDone, TraceLine.isDoneOf, hti]
                  · simp [countDone, TraceLine.isDoneOf, hti]
              | false =>
                  rw [hdoneF hd]
                  simp [countDone, hd]
            rw [hdc]
            by_cases hti : te.id = i
            · have hst : seen = true := by
                rw [← h1, ← hti, hk]
                rfl
              have hldc : laterDoneCount i seen ((now, te) :: rest) =
                  (if te.isDone then 1 else 0) + laterDoneCount i true rest := by
                rw [hst]
                simp [laterDoneCount, hti]
              rw [hldc, hst]
              cases hd : te.isDone with
              | true =>
                  simp only [hti, hd, and_self, if_pos, if_true]
                  omega
              | false =>
                  simp only [hti, hd, Bool.false_eq_true, and_false, if_false]
                  omega
            · have hldc : laterDoneCount i seen ((now, te) :: rest) =
                  laterDoneCount i seen rest := by
                simp [laterDoneCount, hti]
              rw [hldc]
              simp [hti]

/-! Forest-shape lemmas. -/

theorem forestInv_known (allIds seen : List Nat) (p : consoleRenderer) (e : TaskEvent)
    (t : task) (hin : ForestInv allIds seen p) (hnz : e.id ≠ 0)
    (hex : mlookup p.allTasks e.id = some t) :
    ForestInv allIds (seen ++ [e.id]) (consoleRenderer.update p e) := by
  obtain ⟨hnodup, hkeys, hdepth⟩ := hin
  rw [consoleRenderer.update_known p e t hnz hex]
  have hproj : ∀ j, (mlookup (task.update p e.id e).allTasks j).map
      (fun u => (u.depth, u.parentID)) =
      (mlookup p.allTasks j).map (fun u => (u.depth, u.parentID)) :=
    fun j => task.update_mlookup_map (fun u => (u.depth, u.parentID)) e
      (fun u => rfl) (fun u => rfl) (fun u => rfl) (fun u => rfl) p e.id j
  have hmk : mkeys (task.update p e.id e).allTasks = mkeys p.allTasks :=
    task.update_mkeys p e.id e
  have htk : (task.update p e.id e).tasks = p.tasks := task.update_tasks p e.id e
  refine ⟨?_, ?_, ?_⟩
  · rw [hmk]
    exact hnodup
  · intro i
    rw [hmk, List.mem_append, List.mem_singleton]
    constructor
    · intro h
      exact Or.inl ((hkeys i).mp h)
    · rintro (h | rfl)
      · exact (hkeys i).mpr h
      · exact mem_mkeys_of_mlookup hex
  · intro i t' hlk
    have hpi := hproj i
    rw [hlk] at hpi
    cases hold : mlookup p.allTasks i with
    | none =>
        rw [hold] at hpi
        exact absurd hpi (by simp)
    | some u =>
        rw [hold] at hpi
        simp only [Option.map_some', Option.some.injEq, Prod.mk.injEq] at hpi
        obtain ⟨hdep, hpid⟩ := hpi
        obtain ⟨hcase1, hcase2⟩ := hdepth i u hold
        constructor
        · intro par' hpar'
          have hpp := hproj t'.parentID
          rw [hpar'] at hpp
          cases holdp : mlookup p.allTasks t'.parentID with
          | none =>
              rw [holdp] at hpp
              exact absurd hpp (by simp)
          | some q =>
              rw [holdp] at hpp
              simp only [Option.map_some', Option.some.injEq, Prod.mk.injEq] at hpp
              obtain ⟨hq1, hq2⟩ := hpp
              rw [hpid] at holdp
              have hu := hcase1 q holdp
              omega
        · intro hnone
          have hpp := hproj t'.parentID
          rw [hnone] at hpp
          cases holdp : mlookup p.allTasks t'.parentID with
          | some q =>
              rw [holdp] at hpp
              exact absurd hpp.symm (by simp)
          | none =>
              rw [hpid] at holdp
              obtain ⟨hd1, hd2, hd3⟩ := hcase2 holdp
              refine ⟨by omega, ?_, ?_⟩
              · rw [htk]
                exact hd2
              · rw [hpid]
                exact hd3

theorem forestInv_no_dangling (allIds seen : List Nat) (p : consoleRenderer) (k : Nat)
    (hin : ForestInv allIds seen p) (hknew : mlookup p.allTasks k = none)
    (hkall : k ∈ allIds) :
    ∀ i t, mlookup p.allTasks i = some t → t.parentID ≠ k := by
  intro i t h heq
  obtain ⟨_, _, hdepth⟩ := hin
  obtain ⟨h1, h2⟩ := hdepth i t h
  cases hp : mlookup p.allTasks t.parentID with
  | some q =>
      rw [heq, hknew] at hp
      exact Option.noConfusion hp
  | none =>
      obtain ⟨_, _, h3⟩ := h2 hp
      rw [heq] at h3
      exact h3 hkall

theorem forestInv_new_root (allIds seen : List Nat) (p : consoleRenderer) (e : TaskEvent)
    (hin : ForestInv allIds seen p) (hnz : e.id ≠ 0)
    (hknew : mlookup p.allTasks e.id = none)
    (hpar : mlookup p.allTasks e.parentID = none)
    (hmem : e.id ∈ allIds) (hparnotall : e.parentID ∉ allIds) :
    ForestInv allIds (seen ++ [e.id]) (consoleRenderer.update p e) := by
  have hnd := forestInv_no_dangling allIds seen p e.id hin hknew hmem
  obtain ⟨hnodup, hkeys, hdepth⟩ := hin
  rw [consoleRenderer.update_new_root p e hnz hknew hpar]
  have hknotin : e.id ∉ mkeys p.allTasks := (mlookup_eq_none_iff _ _).mp hknew
  have hmk : mkeys (mset p.allTasks e.id (newTask e 1)) = mkeys p.allTasks ++ [e.id] :=
    mkeys_mset_of_not_mem _ _ _ hknotin
  have hpid_ne : e.parentID ≠ e.id := fun h => hparnotall (h ▸ hmem)
  refine ⟨?_, ?_, ?_⟩
  · show (mkeys (mset p.allTasks e.id (newTask e 1))).Nodup
    rw [hmk, List.nodup_append]
    refine ⟨hnodup, List.nodup_singleton _, ?_⟩
    intro a ha hb
    rw [List.mem_singleton] at hb
    subst hb
    exact hknotin ha
  · intro i
    show i ∈ mkeys (mset p.allTasks e.id (newTask e 1)) ↔ i ∈ seen ++ [e.id]
    rw [hmk, List.mem_append, List.mem_append, List.mem_singleton, hkeys i]
  · intro i t' hlk'
    replace hlk' : mlookup (mset p.allTasks e.id (newTask e 1)) i = some t' := hlk'
    rw [mlookup_mset] at hlk'
    by_cases hi : i = e.id
    · rw [if_pos hi] at hlk'
      have ht' : t' = newTask e 1 := by
        injection hlk' with h
        exact h.symm
      subst ht'
      have hplk : mlookup (mset p.allTasks e.id (newTask e 1)) e.parentID = none := by
        rw [mlookup_mset, if_neg hpid_ne, hpar]
      constructor
      · intro par' hpar'
        replace hpar' : mlookup (mset p.allTasks e.id (newTask e 1)) e.parentID =
            some par' := hpar'
        rw [hplk] at hpar'
        exact Option.noConfusion hpar'
      · intro _
        refine ⟨rfl, ?_, hparnotall⟩
        show i ∈ p.tasks ++ [e.id]
        rw [List.mem_append, List.mem_singleton]
        exact Or.inr hi
    · rw [if_neg hi] at hlk'
      have hnotk : t'.parentID ≠ e.id := hnd i t' hlk'
      have hsame : mlookup (mset p.allTasks e.id (newTask e 1)) t'.parentID =
          mlookup p.allTasks t'.parentID := by
        rw [mlookup_mset, if_neg hnotk]
      obtain ⟨hcase1, hcase2⟩ := hdepth i t' hlk'
      constructor
      · intro par' hpar'
        replace hpar' : mlookup (mset p.allTasks e.id (newTask e 1)) t'.parentID =
            some par' := hpar'
        rw [hsame] at hpar'
        exact hcase1 par' hpar'
      · intro hnone
        replace hnone : mlookup (mset p.allTasks e.id (newTask e 1)) t'.parentID =
            none := hnone
        rw [hsame] at hnone
        obtain ⟨hd1, hd2, hd3⟩ := hcase2 hnone
        refine ⟨hd1, ?_, hd3⟩
        show i ∈ p.tasks ++ [e.id]
        rw [List.mem_append]
        exact Or.inl hd2

theorem forestInv_new_child (allIds seen : List Nat) (p : consoleRenderer) (e : TaskEvent)
    (par : task) (hin : ForestInv allIds seen p) (hnz : e.id ≠ 0)
    (hknew : mlookup p.allTasks e.id = none)
    (hpar : mlookup p.allTasks e.parentID = some par)
    (hmem : e.id ∈ allIds) :
    ForestInv allIds (seen ++ [e.id]) (consoleRenderer.update p e) := by
  have hnd := forestInv_no_dangling allIds seen p e.id hin hknew hmem
  obtain ⟨hnodup, hkeys, hdepth⟩ := hin
  rw [consoleRenderer.update_new_child p e par hnz hknew hpar]
  have hknotin : e.id ∉ mkeys p.allTasks := (mlookup_eq_none_iff _ _).mp hknew
  have hpid_ne : e.parentID ≠ e.id := by
    intro h
    rw [h, hknew] at hpar
    exact Option.noConfusion hpar
  have hmks : mkeys (mset p.allTasks e.id (newTask e (par.depth + 1))) =
      mkeys p.allTasks ++ [e.id] := mkeys_mset_of_not_mem _ _ _ hknotin
  have hmk : mkeys (mmodify (mset p.allTasks e.id (newTask e (par.depth + 1))) e.parentID
      (fun parent => { parent with subtasks := parent.subtasks ++ [e.id] })) =
      mkeys p.allTasks ++ [e.id] := by
    rw [mkeys_mmodify, hmks]
  have hproj : ∀ j,
      (mlookup (mmodify (mset p.allTasks e.id (newTask e (par.depth + 1))) e.parentID
        (fun parent => { parent with subtasks := parent.subtasks ++ [e.id] })) j).map
        (fun u => (u.depth, u.parentID)) =
      (mlookup (mset p.allTasks e.id (newTask e (par.depth + 1))) j).map
        (fun u => (u.depth, u.parentID)) := by
    intro j
    exact mlookup_map_mmodify (fun u : task => (u.depth, u.parentID))
      (mset p.allTasks e.id (newTask e (par.depth + 1))) e.parentID
      (fun parent => { parent with subtasks := parent.subtasks ++ [e.id] })
      (fun u => rfl) j
  have hlkid : mlookup (mmodify (mset p.allTasks e.id (newTask e (par.depth + 1))) e.parentID
      (fun parent => { parent with subtasks := parent.subtasks ++ [e.id] })) e.id =
      some (newTask e (par.depth + 1)) := by
    rw [mlookup_mmodify, if_neg (fun h => hpid_ne h.symm), mlookup_mset, if_pos rfl]
  have hlkpar : mlookup (mmodify (mset p.allTasks e.id (newTask e (par.depth + 1))) e.parentID
      (fun parent => { parent with subtasks := parent.subtasks ++ [e.id] })) e.parentID =
      some { par with subtasks := par.subtasks ++ [e.id] } := by
    rw [mlookup_mmodify, if_pos rfl, mlookup_mset, if_neg hpid_ne, hpar]
    rfl
  refine ⟨?_, ?_, ?_⟩
  · show (mkeys (mmodify (mset p.allTasks e.id (newTask e (par.depth + 1))) e.parentID
      (fun parent => { parent with subtasks := parent.subtasks ++ [e.id] }))).Nodup
    rw [hmk, List.nodup_append]
    refine ⟨hnodup, List.nodup_singleton _, ?_⟩
    intro a ha hb
    rw [List.mem_singleton] at hb
    subst hb
    exact hknotin ha
  · intro i
    show i ∈ mkeys (mmodify (mset p.allTasks e.id (newTask e (par.depth + 1))) e.parentID
      (fun parent => { parent with subtasks := parent.subtasks ++ [e.id] })) ↔
      i ∈ seen ++ [e.id]
    rw [hmk, List.mem_append, List.mem_append, List.mem_singleton, hkeys i]
  · intro i t' hlk'
    replace hlk' : mlookup (mmodify (mset p.allTasks e.id (newTask e (par.depth + 1)))
        e.parentID (fun parent => { parent with subtasks := parent.subtasks ++ [e.id] })) i =
        some t' := hlk'
    by_cases hi : i = e.id
    · subst hi
      rw [hlkid] at hlk'
      have ht' : t' = newTask e (par.depth + 1) := by
        injection hlk' with h
        exact h.symm
      subst ht'
      constructor
      · intro par' hpar'
        replace hpar' : mlookup (mmodify (mset p.allTasks e.id (newTask e (par.depth + 1)))
            e.parentID (fun parent => { parent with subtasks := parent.subtasks ++ [e.id] }))
            e.parentID = some par' := hpar'
        rw [hlkpar] at hpar'
        have : par' = { par with subtasks := par.subtasks ++ [e.id] } := by
          injection hpar' with h
          exact h.symm
        subst this
        rfl
      · intro hnone
        replace hnone : mlookup (mmodify (mset p.allTasks e.id (newTask e (par.depth + 1)))
            e.parentID (fun parent => { parent with subtasks := parent.subtasks ++ [e.id] }))
            e.parentID = none := hnone
        rw [hlkpar] at hnone
        exact Option.noConfusion hnone
    · have hpi := hproj i
      rw [hlk', mlookup_mset, if_neg hi] at hpi
      cases hold : mlookup p.allTasks i with
      | none =>
          rw [hold] at hpi
          exact absurd hpi (by simp)
      | some u =>
          rw [hold] at hpi
          simp only [Option.map_some', Option.some.injEq, Prod.mk.injEq] at hpi
          obtain ⟨hdep, hpid⟩ := hpi
          have hnotk : t'.parentID ≠ e.id := by
            rw [hpid]
            exact hnd i u hold
          obtain ⟨hcase1, hcase2⟩ := hdepth i u hold
          have hpp0 := hproj t'.parentID
          rw [mlookup_mset, if_neg hnotk] at hpp0
          constructor
          · intro par' hpar'
            replace hpar' : mlookup (mmodify (mset p.allTasks e.id
                (newTask e (par.depth + 1))) e.parentID
                (fun parent => { parent with subtasks := parent.subtasks ++ [e.id] }))
                t'.parentID = some par' := hpar'
            rw [hpar'] at hpp0
            cases holdp : mlookup p.allTasks t'.parentID with
            | none =>
                rw [holdp] at hpp0
                exact absurd hpp0 (by simp)
            | some q =>
                rw [holdp] at hpp0
                simp only [Option.map_some', Option.some.injEq, Prod.mk.injEq] at hpp0
                obtain ⟨hq1, hq2⟩ := hpp0
                rw [hpid] at holdp
                have hu := hcase1 q holdp
                omega
          · intro hnone
            replace hnone : mlookup (mmodify (mset p.allTasks e.id
                (newTask e (par.depth + 1))) e.parentID
                (fun parent => { parent with subtasks := parent.subtasks ++ [e.id] }))
                t'.parentID = none := hnone
            rw [hnone] at hpp0
            cases holdp : mlookup p.allTasks t'.parentID with
            | some q =>
                rw [holdp] at hpp0
                exact absurd hpp0.symm (by simp)
            | none =>
                rw [hpid] at holdp
                obtain ⟨hd1, hd2, hd3⟩ := hcase2 holdp
                refine ⟨by omega, hd2, ?_⟩
                rw [hpid]
                exact hd3

theorem forestInv_step (allIds : List Nat) (seen : List Nat) (p : consoleRenderer)
    (e : TaskEvent) (hin : ForestInv allIds seen p) (hnz : e.id ≠ 0)
    (hmem : e.id ∈ allIds)
    (hpbc : e.id ∉ seen → e.parentID ∈ allIds → e.parentID ∈ seen) :
    ForestInv allIds (seen ++ [e.id]) (consoleRenderer.update p e) := by
  cases hk : mlookup p.allTasks e.id with
  | some t => exact forestInv_known allIds seen p e t hin hnz hk
  | none =>
      cases hp : mlookup p.allTasks e.parentID with
      | some par => exact forestInv_new_child allIds seen p e par hin hnz hk hp hmem
      | none =>
          have hidnotseen : e.id ∉ seen := by
            intro h
            exact (mlookup_eq_none_iff _ _).mp hk ((hin.2.1 e.id).mpr h)
          have hparnot : e.parentID ∉ allIds := by
            intro hall
            have hseenp := hpbc hidnotseen hall
            exact (mlookup_eq_none_iff _ _).mp hp ((hin.2.1 e.parentID).mpr hseenp)
          exact forestInv_new_root allIds seen p e hin hnz hk hp hmem hparnot

theorem idsOf_append (a b : List TaskEvent) : idsOf (a ++ b) = idsOf a ++ idsOf b := by
  simp [idsOf]

theorem forestInv_fold (es : List TaskEvent) (hnz : ∀ e ∈ es, e.id ≠ 0)
    (hpbc : ParentBeforeChild es) :
    ∀ (suffix pre : List TaskEvent) (p : consoleRenderer), es = pre ++ suffix →
      ForestInv (idsOf es) (idsOf pre) p →
      ForestInv (idsOf es) (idsOf es) (suffix.foldl consoleRenderer.update p) := by
  intro suffix
  induction suffix with
  | nil =>
      intro pre p heq hin
      rw [List.append_nil] at heq
      subst heq
      exact hin
  | cons e rest ihs =>
      intro pre p heq hin
      have hmemes : e ∈ es := by
        rw [heq]
        exact List.mem_append.mpr (Or.inr (List.mem_cons_self _ _))
      have hstep := forestInv_step (idsOf es) (idsOf pre) p e hin (hnz e hmemes)
        (by
          rw [heq, idsOf_append]
          refine List.mem_append.mpr (Or.inr ?_)
          simp [idsOf])
        (fun hfirst hall => hpbc pre e rest heq hfirst hall)
      have heq2 : es = (pre ++ [e]) ++ rest := by
        rw [heq, List.append_assoc]
        rfl
      have hin2 : ForestInv (idsOf es) (idsOf (pre ++ [e])) (consoleRenderer.update p e) := by
        rw [idsOf_append]
        exact hstep
      have := ihs (pre ++ [e]) (consoleRenderer.update p e) heq2 hin2
      simpa [List.foldl] using this

/-- C3: for every sequence of events with non-zero ids respecting
parent-before-child ordering (`ParentBeforeChild`), folding the sequence
with the engine's update yields a forest with exactly one task node per
distinct id (the keys of `allTasks` are duplicate-free and are exactly the
ids of the sequence); a node whose `parentID` names an existing node has
depth equal to that parent's depth plus 1, and every other node has depth
1 and sits in the root task list. -/
theorem forest_one_node_per_id_and_depth (nm : String) (t0 : Nat) (es : List TaskEvent)
    (hnz : ∀ e ∈ es, e.id ≠ 0) (hpbc : ParentBeforeChild es) :
    ((mkeys (es.foldl consoleRenderer.update (newConsoleRenderer nm t0)).allTasks).Nodup ∧
     (∀ i, i ∈ mkeys (es.foldl consoleRenderer.update (newConsoleRenderer nm t0)).allTasks ↔
        i ∈ idsOf es)) ∧
    (∀ i t, mlookup (es.foldl consoleRenderer.update (newConsoleRenderer nm t0)).allTasks i =
        some t →
      (∀ par, mlookup (es.foldl consoleRenderer.update
          (newConsoleRenderer nm t0)).allTasks t.parentID = some par →
        t.depth = par.depth + 1) ∧
      (mlookup (es.foldl consoleRenderer.update
          (newConsoleRenderer nm t0)).allTasks t.parentID = none →
        t.depth = 1 ∧ i ∈ (es.foldl consoleRenderer.update (newConsoleRenderer nm t0)).tasks)) := by
  have hinit : ForestInv (idsOf es) (idsOf []) (newConsoleRenderer nm t0) := by
    refine ⟨List.nodup_nil, ?_, ?_⟩
    · intro i
      simp [newConsoleRenderer, mkeys, idsOf]
    · intro i t h
      exact absurd h (by simp [newConsoleRenderer, mlookup])
  have hfold := forestInv_fold es hnz hpbc es [] (newConsoleRenderer nm t0) rfl hinit
  obtain ⟨hnodup, hkeys, hdepth⟩ := hfold
  refine ⟨⟨hnodup, hkeys⟩, ?_⟩
  intro i t h
  obtain ⟨h1, h2⟩ := hdepth i t h
  refine ⟨h1, ?_⟩
  intro hnone
  obtain ⟨hd1, hd2, _⟩ := h2 hnone
  exact ⟨hd1, hd2⟩

/-- C4 (amended): folding any timed event sequence through the trace
renderer, each distinct id produces exactly one START line (on the first
event for that id, before any DONE line for it — `startBeforeDone`), and
one DONE line is appended for EVERY event with `IsDone` that arrives for
an already-known id (`laterDoneCount`) — so duplicate done events produce
duplicate DONE lines, and the DONE count is 1 exactly when one done event
follows the id's first event. -/
theorem trace_start_done_lines (nm : String) (t0 : Nat) (tes : List (Nat × TaskEvent))
    (i : Nat) :
    (countStart i (foldTrace (newTraceRenderer nm t0) tes).buf =
      (if tes.any (fun pr => pr.2.id == i) then 1 else 0)) ∧
    (countDone i (foldTrace (newTraceRenderer nm t0) tes).buf = laterDoneCount i false tes) ∧
    startBeforeDone i (foldTrace (newTraceRenderer nm t0) tes).buf := by
  have h := traceFold_counts i tes (newTraceRenderer nm t0) false rfl rfl rfl
    (by
      intro n hcontr
      simp [newTraceRenderer, hasDoneLine] at hcontr)
  obtain ⟨c1, c2, c3⟩ := h
  refine ⟨?_, ?_, c3⟩
  · rw [c1, Bool.false_or]
  · rw [c2]
    simp [newTraceRenderer, countDone]

/-! Remaining claim theorems, witnesses and counterexamples. -/

/-- C10: for every event whose `ID` field is 0, the console renderer's
update returns immediately and leaves the renderer state entirely
unchanged — no task node is created or modified, no counter changes, and
the root task list and id map stay the same. -/
theorem update_ignores_zero_id (p : consoleRenderer) (te : TaskEvent) (h : te.id = 0) :
    consoleRenderer.update p te = p :=
  consoleRenderer.update_zero p te h

/-- Witness for C10 at a concrete populated state and a concrete id-0
event. -/
theorem update_ignores_zero_id_witness :
    consoleRenderer.update c2State { parentID := 3, current := 5, name := "zz" } = c2State :=
  update_ignores_zero_id c2State { parentID := 3, current := 5, name := "zz" } rfl

/-- C7: for every wrapped reader or writer task, whatever `(n, err)` the
underlying stream returns, the wrapper adds `n` to its cumulative byte
count, emits one progress event carrying exactly the task id and the new
cumulative count as `Current`, and returns the underlying `(n, err)`
unchanged to the caller — also when `err` is present. -/
theorem reader_writer_passthrough (t : readerTask) (w : writerTask) (n : Nat)
    (e : Option String) :
    readerTask.Read t (n, e) =
      ({ t with read := t.read + n }, { id := t.id, current := t.read + n }, (n, e)) ∧
    writerTask.Write w (n, e) =
      ({ w with written := w.written + n }, { id := w.id, current := w.written + n }, (n, e)) :=
  ⟨rfl, rfl⟩

/-- C8 (amended): one iteration of the scheduler loop renders exactly when
the source has closed (the final render, which bypasses the limiter) or
the rate limiter grants a token — whichever kind of wake-up (tick or
event arrival) started the iteration; and any non-final render comes at
least the minimum inter-render interval after the previous limiter
grant.  In particular an event arrival does trigger a render whenever a
token is available. -/
theorem render_gating {σ : Type} (upd : σ → TaskEvent → σ) (st : LoopState σ)
    (now : Nat) (inp : LoopInput) :
    ((MainLoop.step upd st now inp).2 =
      ((st.done || LoopInput.isClosed inp) || limiterAllow st.lastAllow now)) ∧
    ((st.done || LoopInput.isClosed inp) = false → (MainLoop.step upd st now inp).2 = true →
      ∀ l, st.lastAllow = some l → l + rateLimit ≤ now) := by
  refine ⟨MainLoop.step_rendered upd st now inp, ?_⟩
  intro hnf hr l hl
  rw [MainLoop.step_rendered upd st now inp, hnf, Bool.false_or] at hr
  rw [hl] at hr
  simpa [limiterAllow] using hr

/-- Witness for C8 at a concrete loop state whose limiter last fired at
time 3, woken by a tick at time 103. -/
theorem render_gating_witness :
    (MainLoop.step consoleRenderer.update
      ({ prog := newConsoleRenderer "w" 0, done := false, lastAllow := some 3 } :
        LoopState consoleRenderer) 103 LoopInput.tick).2 = true ∧
    3 + rateLimit ≤ 103 := by
  have h := render_gating consoleRenderer.update
    ({ prog := newConsoleRenderer "w" 0, done := false, lastAllow := some 3 } :
      LoopState consoleRenderer) 103 LoopInput.tick
  refine ⟨?_, ?_⟩
  · rw [h.1]
    decide
  · exact h.2 (by decide) (by rw [h.1]; decide) 3 rfl

/-- Counterexample to C8 as stated: with a fresh limiter, the arrival of a
plain event (not a tick, not channel closure, loop not done) makes the
iteration render. -/
theorem event_arrival_renders_counterexample :
    (MainLoop.step consoleRenderer.update
      ({ prog := newConsoleRenderer "m" 0 } : LoopState consoleRenderer) 0
      (LoopInput.ev { id := 1, name := "t" })).2 = true ∧
    (LoopInput.ev { id := 1, name := "t" } : LoopInput) ≠ LoopInput.tick ∧
    LoopInput.isClosed (LoopInput.ev { id := 1, name := "t" }) = false ∧
    ({ prog := newConsoleRenderer "m" 0 } : LoopState consoleRenderer).done = false := by
  decide

/-- C5 (amended): the console renderer paints the inline bar on a task's
row exactly when the bar toggle is enabled, the total is known and the
task is not done; the value of `current` is not consulted, so a
displayBar-enabled, not-done task with a known total whose `current` is
still 0 is rendered with an (empty) bar. -/
theorem renderRow_bar_iff (t : task) :
    (task.renderRow t).bar = true ↔
      (t.displayBar = true ∧ 0 < t.total ∧ t.isDone = false) := by
  simp [task.renderRow, Bool.and_eq_true, decide_eq_true_eq, Bool.not_eq_true', and_assoc]

/-- Counterexample to C5 as stated: in `c5State` the task toggled
`displayBar(true)` and knows `total = 100` but has received no event with
`Current > 0`; its row is nevertheless rendered with a bar. -/
theorem bar_without_progress_counterexample :
    (mlookup c5State.allTasks 1).map
      (fun t => ((task.renderRow t).bar, t.current, t.displayBar, t.total, t.isDone)) =
      some (true, 0, true, 100, false) := by
  decide

/-- C6 (amended): an event with an unseen id whose `parentID` does not
name an existing node (id 0 never does) is handled without failure: the
engine creates a depth-1 node, appends it to the root-level task list, and
the resulting state is the one the same event with `parentID = 0` would
produce except that the stored node keeps the original `parentID`. -/
theorem unknown_parent_as_root (p : consoleRenderer) (te : TaskEvent)
    (hid : te.id ≠ 0) (hnew : mlookup p.allTasks te.id = none)
    (hpar : mlookup p.allTasks te.parentID = none)
    (hzero : mlookup p.allTasks 0 = none) :
    consoleRenderer.update p te =
      { p with allTasks := mset p.allTasks te.id (newTask te 1),
               tasks := p.tasks ++ [te.id] } ∧
    mlookup (consoleRenderer.update p te).allTasks te.id = some (newTask te 1) ∧
    (newTask te 1).depth = 1 ∧ (newTask te 1).parentID = te.parentID ∧
    consoleRenderer.update p te =
      modifyTask (consoleRenderer.update p { te with parentID := 0 }) te.id
        (fun u => { u with parentID := te.parentID }) := by
  have h1 := consoleRenderer.update_new_root p te hid hnew hpar
  refine ⟨h1, ?_, rfl, rfl, ?_⟩
  · rw [h1]
    show mlookup (mset p.allTasks te.id (newTask te 1)) te.id = some (newTask te 1)
    rw [mlookup_mset, if_pos rfl]
  · have h2 := consoleRenderer.update_new_root p { te with parentID := 0 } hid hnew hzero
    rw [h1, h2]
    unfold modifyTask
    dsimp only
    rw [mmodify_mset_self]
    rfl

/-- Witness for C6: an orphan event for id 7 with dangling parent 9
becomes a depth-1 root task of `c2State`. -/
theorem unknown_parent_as_root_witness :
    consoleRenderer.update c2State { id := 7, parentID := 9, name := "orphan" } =
      { c2State with
        allTasks := (mset c2State.allTasks 7 (newTask { id := 7, parentID := 9, name := "orphan" } 1)),
        tasks := c2State.tasks ++ [7] } :=
  (unknown_parent_as_root c2State { id := 7, parentID := 9, name := "orphan" }
    (by decide) (by decide) (by decide) (by decide)).1

/-- Counterexample to C6 as stated ("exactly as if parentId had been 0"):
the two updates produce different states — the stored `parentID` differs —
and the difference is observable: if the dangling parent id is created
later, the child's done event increments that parent's `subtasksDone`
(`c6A`) instead of the renderer's `tasksDone` (`c6B`). -/
theorem unknown_parent_not_as_zero_counterexample :
    consoleRenderer.update (newConsoleRenderer "c6" 0)
        { id := 1, parentID := 5, name := "ch" } ≠
      consoleRenderer.update (newConsoleRenderer "c6" 0)
        { id := 1, parentID := 0, name := "ch" } ∧
    c6A.tasksDone = 0 ∧ c6B.tasksDone = 1 ∧
    (mlookup c6A.allTasks 5).map task.subtasksDone = some 1 := by
  decide

/-- Witness for C9: applying `cached()`'s event to the finished task of
`c9State`. -/
theorem cached_event_witness :
    consoleRenderer.update c9State (taskExecutor.CachedEvent 1) =
      { c9State with allTasks := (mset c9State.allTasks 1
          { c9Node with endTime := 0, isCached := true }) } :=
  cached_event_updates_only_cached_and_endTime c9State 1 c9Node (by decide) (by decide)

/-- Counterexample to C9 as stated: in `c9State` the (done) task has
recorded `endTime = 5`; applying the cached event sets `isCached` but also
resets the recorded `endTime` to the zero time, so not every other field
is left unchanged. -/
theorem cached_event_clobbers_endTime_counterexample :
    (mlookup c9State.allTasks 1).map task.endTime = some 5 ∧
    (mlookup (consoleRenderer.update c9State (taskExecutor.CachedEvent 1)).allTasks 1).map
      task.endTime = some 0 ∧
    (mlookup (consoleRenderer.update c9State (taskExecutor.CachedEvent 1)).allTasks 1).map
      task.isDone = some true := by
  decide

/-- Witness for C1: in `c1State` (current 7), an event with `Current = 9`
overwrites the counter, and the reset event refreshes `ioStartTime` and
`total` while leaving `current` at 7. -/
theorem current_total_update_and_reset_witness :
    ((mlookup (consoleRenderer.update c1State { id := 1, current := 9 }).allTasks 1).map
      task.current = some (if 0 < (9 : Nat) then 9 else c1Node.current)) ∧
    consoleRenderer.update c1State (copyTask.ResetEvent 1 50 99) =
      { c1State with allTasks := (mset c1State.allTasks 1
          { c1Node with endTime := 0, ioStartTime := 99,
                        total := if 0 < (50 : Nat) then 50 else c1Node.total }) } := by
  have h := current_total_update_and_reset c1State { id := 1, current := 9 } c1Node
    (by decide) (by decide)
  exact ⟨h.1, h.2.2.2 50 99 (by decide)⟩

/-- Counterexample to C1 as stated: in `c1State` (current 7) the reset
event leaves `current` at 7 instead of setting it to 0, and an event with
the smaller positive `Current = 3` decreases the counter from 7 to 3. -/
theorem reset_does_not_zero_counterexample :
    ((mlookup (consoleRenderer.update c1State (copyTask.ResetEvent 1 0 9)).allTasks 1).map
      task.current = some 7) ∧ (7 : Nat) ≠ 0 ∧
    ((mlookup (consoleRenderer.update c1State { id := 1, current := 3 }).allTasks 1).map
      task.current = some 3) ∧ (3 : Nat) < 7 := by
  decide

/-- Witness for C2: the first done event for subtask 2 of `c2State` sets
its flag and bumps the parent's `subtasksDone` while `tasksDone` stays;
replaying the done event on `c2Done` changes no counter. -/
theorem done_transition_once_witness :
    ((mlookup (consoleRenderer.update c2State { id := 2, isDone := true }).allTasks 2).map
      task.isDone = some true) ∧
    (consoleRenderer.update c2State { id := 2, isDone := true }).tasksDone =
      c2State.tasksDone ∧
    ((mlookup (consoleRenderer.update c2State { id := 2, isDone := true }).allTasks
        c2Node.parentID).map task.subtasksDone =
      (mlookup c2State.allTasks c2Node.parentID).map (fun u => u.subtasksDone + 1)) ∧
    (consoleRenderer.update c2Done { id := 2, isDone := true }).tasksDone =
      c2Done.tasksDone := by
  have h := done_transition_once c2State { id := 2, isDone := true } c2Node
    (by decide) (by decide)
  have h2 := done_transition_once c2Done { id := 2, isDone := true } c2NodeDone
    (by decide) (by decide)
  have hfired := h.1 rfl rfl
  have hpar := hfired.2.1 { id := 1, name := "par", depth := 1, subtasks := [2] } (by decide)
  exact ⟨hfired.1, hpar.1, hpar.2, (h2.2 rfl).2.1⟩

/-- Witness for C4: one start event followed by one done event for id 1
yields exactly one START and one DONE line. -/
theorem trace_lines_witness :
    countStart 1 (foldTrace (newTraceRenderer "r" 0)
      [(0, { id := 1, name := "x" }), (1, { id := 1, isDone := true })]).buf = 1 ∧
    countDone 1 (foldTrace (newTraceRenderer "r" 0)
      [(0, { id := 1, name := "x" }), (1, { id := 1, isDone := true })]).buf = 1 := by
  have h := trace_start_done_lines "r" 0
    [(0, { id := 1, name := "x" }), (1, { id := 1, isDone := true })] 1
  refine ⟨?_, ?_⟩
  · rw [h.1]
    decide
  · rw [h.2.1]
    decide

/-- Counterexample to C4 as stated: two done events for the same id
produce two DONE lines, not one. -/
theorem trace_duplicate_done_counterexample :
    countDone 1 (foldTrace (newTraceRenderer "r" 0)
      [(0, { id := 1, name := "x" }), (1, { id := 1, isDone := true }),
       (2, { id := 1, isDone := true })]).buf = 2 ∧ (2 : Nat) ≠ 1 := by
  decide

/-- Witness for C3 on a concrete parent/child event pair. -/
theorem forest_shape_witness :
    (mkeys (([{ id := 1, name := "a" }, { id := 2, parentID := 1, name := "b" }] :
      List TaskEvent).foldl consoleRenderer.update
        (newConsoleRenderer "w" 0)).allTasks).Nodup ∧
    (2 ∈ mkeys (([{ id := 1, name := "a" }, { id := 2, parentID := 1, name := "b" }] :
      List TaskEvent).foldl consoleRenderer.update (newConsoleRenderer "w" 0)).allTasks ↔
      2 ∈ idsOf [{ id := 1, name := "a" }, { id := 2, parentID := 1, name := "b" }]) := by
  have hpbc : ParentBeforeChild
      [{ id := 1, name := "a" }, { id := 2, parentID := 1, name := "b" }] := by
    intro pre e post heq hfirst hpar
    cases pre with
    | nil =>
        simp only [List.nil_append] at heq
        injection heq with ha hb
        subst ha
        exact absurd hpar (by decide)
    | cons a pre' =>
        cases pre' with
        | nil =>
            simp only [List.cons_append, List.nil_append] at heq
            injection heq with ha hb
            injection hb with hb1 hb2
            subst hb1
            subst ha
            exact (by decide :
              ({ id := 2, parentID := 1, name := "b" } : TaskEvent).parentID ∈
                idsOf [{ id := 1, name := "a" }])
        | cons b pre'' =>
            simp only [List.cons_append] at heq
            injection heq with h1 h2
            injection h2 with h3 h4
            exact absurd h4.symm (by simp)
  have h := forest_one_node_per_id_and_depth "w" 0
    [{ id := 1, name := "a" }, { id := 2, parentID := 1, name := "b" }]
    (by decide) hpbc
  exact ⟨h.1.1, h.1.2 2⟩
